import Mathlib

/-
  Verification development for the meritrank-service engine
  (src/src/operations.rs).

  Weights (Rust f64) are modelled as exact rationals; node ids (usize)
  as Nat.  The external `meritrank` crate's graph is modelled from the
  contract in the spec, section 4.2.  Rust HashMaps are modelled as
  association lists; the engine only ever observes them through lookup,
  insert, in-place modification and whole-map iteration, so iteration
  order is the list order.
-/

/-- Association-list lookup, modelling HashMap::get. -/
def lookupA {κ β : Type} [DecidableEq κ] : List (κ × β) → κ → Option β
  | [], _ => none
  | (k', v) :: t, k => if k' = k then some v else lookupA t k

/-- Association-list insert, modelling HashMap::insert: replace the
first binding of the key in place, else append. -/
def insertA {κ β : Type} [DecidableEq κ] : List (κ × β) → κ → β → List (κ × β)
  | [], k, v => [(k, v)]
  | (k', v') :: t, k, v => if k' = k then (k, v) :: t else (k', v') :: insertA t k v

/-- Association-list removal, modelling HashMap::remove. -/
def eraseA {κ β : Type} [DecidableEq κ] (l : List (κ × β)) (k : κ) : List (κ × β) :=
  l.filter (fun p => decide (p.1 ≠ k))

/-- In-place update of the value bound to a key, modelling mutation
through HashMap::get_mut. -/
def modifyA {κ β : Type} [DecidableEq κ] (l : List (κ × β)) (k : κ) (f : β → β) :
    List (κ × β) :=
  l.map (fun p => if p.1 = k then (p.1, f p.2) else p)

/-- Keys of an association list. -/
def keysA {κ β : Type} (l : List (κ × β)) : List κ := l.map Prod.fst

--  ================================================================
--    Executable rational arithmetic
--  ================================================================

/-
  The spec acknowledges that the service does exact-looking arithmetic
  on f64 weights; weights are modelled as exact rationals.  The
  standard `Rat` operations of Batteries are `@[irreducible]`, which
  blocks kernel evaluation of concrete states, so the model computes
  with the following wrappers, each proved equal to the standard
  operation below.
-/

/-- Executable addition on ℚ (equal to `+`, see wAdd_eq). -/
def wAdd (a b : ℚ) : ℚ := Rat.divInt (a.num * b.den + b.num * a.den) (a.den * b.den)

/-- Executable multiplication on ℚ (equal to `*`, see wMul_eq). -/
def wMul (a b : ℚ) : ℚ := Rat.divInt (a.num * b.num) (a.den * b.den)

/-- Executable subtraction on ℚ (equal to `-`, see wSub_eq). -/
def wSub (a b : ℚ) : ℚ := wAdd a (-b)

/-- Executable division on ℚ (equal to `/`, see wDiv_eq). -/
def wDiv (a b : ℚ) : ℚ := Rat.divInt (a.num * b.den) (a.den * b.num)

/-- Executable list sum on ℚ (equal to List.sum, see wSum_eq). -/
def wSum (l : List ℚ) : ℚ := l.foldr wAdd 0

/-- Executable absolute value on ℚ (f64::abs; equal to `|.|`, see
ratAbs_eq_abs). -/
def ratAbs (q : ℚ) : ℚ := if q < 0 then -q else q

--  ================================================================
--    Bloom filter (operations.rs lines 90-141)
--  ================================================================

/-- A fixed array of 16 u64 words ([u64; BLOOM_FILTER_SIZE]).  u64
words are modelled as Nat; only bitwise or / and are applied to them,
which never overflow. -/
def Marks : Type := Fin 16 → Nat

instance : DecidableEq Marks := fun a b =>
  decidable_of_iff (∀ i, a i = b i) ⟨funext, fun h i => congrFun h i⟩

/-- The all-zeroes mark set ([u64; 16] default). -/
def marksZero : Marks := fun _ => 0

/-- bloom_filter_add: mask[i] |= bits[i] for every word. -/
def bloom_filter_add (mask bits : Marks) : Marks :=
  fun i => mask i ||| bits i

/-- bloom_filter_contains: (mask[i] & bits[i]) == bits[i] for every word. -/
def bloom_filter_contains (mask bits : Marks) : Bool :=
  decide (∀ i, mask i &&& bits i = bits i)

--  ================================================================
--    Node kinds and infos (operations.rs lines 56-70, 149-158)
--  ================================================================

inductive NodeKind : Type
  | Unknown
  | User
  | Beacon
  | Comment
deriving DecidableEq

/-- kind_from_name: the kind is derived from the first character. -/
def kind_from_name (name : String) : NodeKind :=
  match name.data with
  | 'U' :: _ => NodeKind.User
  | 'B' :: _ => NodeKind.Beacon
  | 'C' :: _ => NodeKind.Comment
  | _ => NodeKind.Unknown

structure NodeInfo : Type where
  kind : NodeKind
  name : String
  marks : Marks

/-- NodeInfo::default. -/
def NodeInfo.dflt : NodeInfo := ⟨NodeKind.Unknown, "", marksZero⟩

--  ================================================================
--    The external meritrank graph, modelled from the spec
--  ================================================================

/-- Modelled from the spec: the graph of the external `meritrank`
crate (not part of this repository).  Per spec section 4.2 it supports
`set_edge` (upsert, weight 0 means remove), `edge_weight` (absent
reads as 0), `get_node_data` returning positive and negative edge
lists and the cached positive sum, and an id allocator
(`get_new_nodeid`).  `nextId` is the number of allocated node slots;
`weights` maps (src, dst) to the (nonzero) stored weight. -/
structure MRGraph : Type where
  nextId : Nat
  weights : List ((Nat × Nat) × ℚ)

/-- MeritRank::new(Graph::new()) with no allocated ids. -/
def MRGraph.empty : MRGraph := ⟨0, []⟩

/-- edge_weight(src, dst).unwrap_or(None).unwrap_or(&0.0). -/
def MRGraph.edge_weight (g : MRGraph) (src dst : Nat) : ℚ :=
  (lookupA g.weights (src, dst)).getD 0

/-- set_edge: upsert; weight 0 removes the edge. -/
def MRGraph.set_edge (g : MRGraph) (src dst : Nat) (w : ℚ) : MRGraph :=
  if w = 0 then { g with weights := eraseA g.weights (src, dst) }
  else { g with weights := insertA g.weights (src, dst) w }

/-- contains_node: the id slot has been allocated. -/
def MRGraph.contains_node (g : MRGraph) (id : Nat) : Bool := id < g.nextId

/-- The effect of `while graph.get_new_nodeid() < node_id {}` guarded
by `contains_node` (operations.rs lines 454-463): allocate id slots
until `id` is covered. -/
def MRGraph.ensure_node (g : MRGraph) (id : Nat) : MRGraph :=
  if id < g.nextId then g else { g with nextId := id + 1 }

/-- Positive outgoing edges of a node (get_node_data(...).pos_edges). -/
def MRGraph.pos_edges (g : MRGraph) (src : Nat) : List (Nat × ℚ) :=
  g.weights.filterMap (fun p =>
    if p.1.1 = src ∧ 0 < p.2 then some (p.1.2, p.2) else none)

/-- Negative outgoing edges of a node (get_node_data(...).neg_edges). -/
def MRGraph.neg_edges (g : MRGraph) (src : Nat) : List (Nat × ℚ) :=
  g.weights.filterMap (fun p =>
    if p.1.1 = src ∧ p.2 < 0 then some (p.1.2, p.2) else none)

/-- pos_edges.iter().chain(neg_edges.iter()). -/
def MRGraph.out_edges (g : MRGraph) (src : Nat) : List (Nat × ℚ) :=
  g.pos_edges src ++ g.neg_edges src

/-- get_node_data(...).pos_sum: cached sum of positive outgoing weights. -/
def MRGraph.pos_sum (g : MRGraph) (src : Nat) : ℚ :=
  wSum ((g.pos_edges src).map Prod.snd)

/-- meritrank::constants::EPSILON, per the spec 1e-10. -/
def EPSILON : ℚ := mkRat 1 10000000000

--  ================================================================
--    AugMultiGraph state (operations.rs lines 74-82)
--  ================================================================

/-- The augmented multi-context graph.  The `dummy_info` and
`dummy_graph` fields of the Rust struct are scratch fallbacks returned
on unreachable error paths and never feed back into observable
behaviour; they are not part of the model. -/
structure AugMultiGraph : Type where
  node_count : Nat
  node_infos : List NodeInfo
  node_ids : List (String × Nat)
  contexts : List (String × MRGraph)

/-- AugMultiGraph::new. -/
def AugMultiGraph.new : AugMultiGraph := ⟨0, [], [], []⟩

/-- node_exists. -/
def AugMultiGraph.node_exists (s : AugMultiGraph) (name : String) : Bool :=
  (lookupA s.node_ids name).isSome

/-- node_info_from_id; a missing id yields the default dummy info. -/
def AugMultiGraph.node_info_from_id (s : AugMultiGraph) (id : Nat) : NodeInfo :=
  (s.node_infos[id]?).getD NodeInfo.dflt

def AugMultiGraph.kindOfId (s : AugMultiGraph) (id : Nat) : NodeKind :=
  (s.node_info_from_id id).kind

def AugMultiGraph.nameOfId (s : AugMultiGraph) (id : Nat) : String :=
  (s.node_info_from_id id).name

def AugMultiGraph.marksOfId (s : AugMultiGraph) (id : Nat) : Marks :=
  (s.node_info_from_id id).marks

/-- The graph that create_context builds (operations.rs lines
227-256): fresh with `node_count` allocated ids; for a non-null
context, every User-sourced edge of the null context is copied in. -/
def AugMultiGraph.fresh_context_graph (s : AugMultiGraph) (context : String) :
    MRGraph :=
  let base : MRGraph := ⟨s.node_count, []⟩
  if context = "" then base
  else
    match lookupA s.contexts "" with
    | some zero =>
      (List.range zero.nextId).foldl (fun g src =>
        if s.kindOfId src = NodeKind.User then
          (zero.out_edges src).foldl (fun g p => g.set_edge src p.1 p.2) g
        else g) base
    | none => base

/-- create_context (operations.rs lines 222-259): build the fresh
(possibly seeded) graph and insert it, replacing any previous graph
bound to that name. -/
def AugMultiGraph.create_context (s : AugMultiGraph) (context : String) :
    AugMultiGraph :=
  { s with contexts := insertA s.contexts context (s.fresh_context_graph context) }

/-- graph_from: create the context when missing, then read it. -/
def AugMultiGraph.graph_from (s : AugMultiGraph) (context : String) :
    AugMultiGraph × MRGraph :=
  let s' := if (lookupA s.contexts context).isSome then s else s.create_context context
  (s', (lookupA s'.contexts context).getD MRGraph.empty)

/-- In-place mutation of the graph returned by graph_from. -/
def AugMultiGraph.modify_graph (s : AugMultiGraph) (context : String)
    (f : MRGraph → MRGraph) : AugMultiGraph :=
  let s' := (s.graph_from context).1
  { s' with contexts := modifyA s'.contexts context f }

/-- edge_weight (operations.rs lines 277-280); creates the context
when missing, like the Rust original. -/
def AugMultiGraph.edge_weight (s : AugMultiGraph) (context : String)
    (src dst : Nat) : AugMultiGraph × ℚ :=
  let (s', g) := s.graph_from context
  (s', g.edge_weight src dst)

/-- edge_weight_normalized (operations.rs lines 282-299). -/
def AugMultiGraph.edge_weight_normalized (s : AugMultiGraph) (context : String)
    (src dst : Nat) : AugMultiGraph × ℚ :=
  let (s', g) := s.graph_from context
  let psum :=
    if g.contains_node src then
      if g.pos_sum src < EPSILON then 1 else g.pos_sum src
    else 1
  (s', wDiv (g.edge_weight src dst) psum)

/-- all_neighbors (operations.rs lines 301-325). -/
def AugMultiGraph.all_neighbors (s : AugMultiGraph) (context : String)
    (node : Nat) : AugMultiGraph × List (Nat × ℚ) :=
  let (s', g) := s.graph_from context
  (s', if g.contains_node node then g.out_edges node else [])

/-- all_neighbors_normalized (operations.rs lines 327-358). -/
def AugMultiGraph.all_neighbors_normalized (s : AugMultiGraph) (context : String)
    (node : Nat) : AugMultiGraph × List (Nat × ℚ) :=
  let (s', g) := s.graph_from context
  if g.contains_node node then
    let psum := if g.pos_sum node < EPSILON then 1 else g.pos_sum node
    (s', (g.out_edges node).map (fun p => (p.1, wDiv p.2 psum)))
  else (s', [])

/-- List resize with a default element (Vec::resize). -/
def resizeL {α : Type} (l : List α) (n : Nat) (d : α) : List α :=
  if l.length ≤ n then l ++ List.replicate (n - l.length) d else l.take n

/-- find_or_add_node_by_name (operations.rs lines 431-466). -/
def AugMultiGraph.find_or_add_node_by_name (s : AugMultiGraph) (name : String) :
    AugMultiGraph × Nat :=
  let (s1, id) :=
    match lookupA s.node_ids name with
    | some id => (s, id)
    | none =>
      let id := s.node_count
      ({ s with
          node_count := s.node_count + 1,
          node_infos :=
            (resizeL s.node_infos (s.node_count + 1) NodeInfo.dflt).set id
              ⟨kind_from_name name, name, marksZero⟩,
          node_ids := insertA s.node_ids name id }, id)
  ({ s1 with contexts := s1.contexts.map (fun p => (p.1, p.2.ensure_node id)) }, id)

/-- set_edge (operations.rs lines 468-503): User-sourced edges are
broadcast to every context; null-context writes go to null only;
non-null writes apply a delta to null and the amount to the context. -/
def AugMultiGraph.set_edge (s : AugMultiGraph) (context : String)
    (src dst : Nat) (amount : ℚ) : AugMultiGraph :=
  if s.kindOfId src = NodeKind.User then
    let s1 := (s.graph_from "").1
    let s2 := if context = "" then s1 else (s1.graph_from context).1
    { s2 with
        contexts := s2.contexts.map (fun p => (p.1, p.2.set_edge src dst amount)) }
  else if context = "" then
    s.modify_graph "" (fun g => g.set_edge src dst amount)
  else
    let (s1, null_w) := s.edge_weight "" src dst
    let (s2, old_w) := s1.edge_weight context src dst
    let delta := wSub (wAdd null_w amount) old_w
    let s3 := s2.modify_graph "" (fun g => g.set_edge src dst delta)
    s3.modify_graph context (fun g => g.set_edge src dst amount)

/-- write_create_context (operations.rs lines 664-667). -/
def AugMultiGraph.write_create_context (s : AugMultiGraph) (context : String) :
    AugMultiGraph :=
  s.create_context context

/-- write_put_edge (operations.rs lines 669-682). -/
def AugMultiGraph.write_put_edge (s : AugMultiGraph) (context src dst : String)
    (amount : ℚ) : AugMultiGraph :=
  let (s1, src_id) := s.find_or_add_node_by_name src
  let (s2, dst_id) := s1.find_or_add_node_by_name dst
  s2.set_edge context src_id dst_id amount

/-- write_delete_edge (operations.rs lines 684-700): no-op when either
endpoint is unknown, else set the weight to 0. -/
def AugMultiGraph.write_delete_edge (s : AugMultiGraph) (context src dst : String) :
    AugMultiGraph :=
  if s.node_exists src = false ∨ s.node_exists dst = false then s
  else
    let (s1, src_id) := s.find_or_add_node_by_name src
    let (s2, dst_id) := s1.find_or_add_node_by_name dst
    s2.set_edge context src_id dst_id 0

/-- write_delete_node (operations.rs lines 702-718): zero every
outgoing edge of the node in the given context. -/
def AugMultiGraph.write_delete_node (s : AugMultiGraph) (context node : String) :
    AugMultiGraph :=
  if s.node_exists node = false then s
  else
    let (s1, id) := s.find_or_add_node_by_name node
    let (s2, nbrs) := s1.all_neighbors context id
    nbrs.foldl (fun s p => s.set_edge context id p.1 0) s2

--  ================================================================
--    Sorting (Vec::sort_by with a total descending comparator)
--  ================================================================

/-- Insert into a list sorted descending by `key`, keeping the new
element after strictly-greater keys and before equal ones, which
together with `sortDescBy` models the stable Rust sort_by. -/
def insertDescBy {α : Type} (key : α → ℚ) (x : α) : List α → List α
  | [] => [x]
  | y :: t => if key y ≤ key x then x :: y :: t else y :: insertDescBy key x t

/-- Stable sort, descending by `key`. -/
def sortDescBy {α : Type} (key : α → ℚ) (l : List α) : List α :=
  l.foldr (insertDescBy key) []

--  ================================================================
--    read_scores (operations.rs lines 578-662)
--  ================================================================

/-- The node-kind filter string of read_scores; an invalid string
aborts the query. -/
def kindOfString (kind_str : String) : Option NodeKind :=
  if kind_str = "" then some NodeKind.Unknown
  else if kind_str = "U" then some NodeKind.User
  else if kind_str = "B" then some NodeKind.Beacon
  else if kind_str = "C" then some NodeKind.Comment
  else none

/-- The final paging loop of read_scores:
`for i in index..count { if i >= im.len() break; push im[i] }`,
which collects the elements with positions in [index, count). -/
def readScoresPage {α : Type} (l : List α) (index count : Nat) : List α :=
  (l.take count).drop index

/-- The slice [index, index+count) that the spec prescribes for
read_scores (stated for comparison with `readScoresPage`). -/
def readScoresSpecPage {α : Type} (l : List α) (index count : Nat) : List α :=
  (l.drop index).take count

/-- read_scores.  `ranks` stands for the value returned by
get_ranks_or_recalculate, a query against the external random-walk
estimator; its graph_from side effect is a no-op here because the
context is known to exist. -/
def AugMultiGraph.read_scores (s : AugMultiGraph) (ranks : List (Nat × ℚ))
    (context ego kind_str : String) (hide_personal : Bool)
    (score_lt : ℚ) (score_lte : Bool) (score_gt : ℚ) (score_gte : Bool)
    (index count : Nat) : AugMultiGraph × List (String × String × ℚ) :=
  match kindOfString kind_str with
  | none => (s, [])
  | some kind =>
    if (lookupA s.contexts context).isNone then (s, [])
    else if s.node_exists ego = false then (s, [])
    else
      let (s1, node_id) := s.find_or_add_node_by_name ego
      let g := (lookupA s1.contexts context).getD MRGraph.empty
      let im0 := ranks.map (fun p => (p.1, s1.kindOfId p.1, p.2))
      let im1 := im0.filter (fun t =>
        decide (kind = NodeKind.Unknown ∨ kind = t.2.1))
      let im2 := im1.filter (fun t =>
        decide (score_gt < t.2.2 ∨ (score_gte = true ∧ score_gt ≤ t.2.2)))
      let im3 := im2.filter (fun t =>
        decide (t.2.2 < score_lt ∨ (score_lte = true ∧ t.2.2 ≤ score_lt)))
      let im4 := im3.filter (fun t =>
        if hide_personal = false ∨ (t.2.1 ≠ NodeKind.Comment ∧ t.2.1 ≠ NodeKind.Beacon)
        then true
        else (lookupA g.weights (t.1, node_id)).isNone)
      let im5 := im4.map (fun t => (t.1, t.2.2))
      let sorted := sortDescBy (fun p => ratAbs p.2) im5
      (s1, (readScoresPage sorted index count).map (fun p =>
        (ego, s1.nameOfId p.1, p.2)))

--  ================================================================
--    read_graph (operations.rs lines 720-1012)
--  ================================================================

/-- The path-contraction weight of read_graph (operations.rs lines
791 and 920): the product of the two factors, negated when both
factors are negative. -/
def contract_weight (a b : ℚ) : ℚ :=
  wMul (wMul a b) (if a < 0 ∧ b < 0 then -1 else 1)

/-- Add a node id to the in-memory graph unless already present
(the indices/ids maps of read_graph). -/
def addImNode (nodes : List Nat) (id : Nat) : List Nat :=
  if id ∈ nodes then nodes else nodes ++ [id]

/-- The focus-neighborhood phase of read_graph (operations.rs lines
760-806), threading the engine state and accumulating the in-memory
nodes and edges.  `score` stands for get_score_or_recalculate against
the external estimator. -/
def AugMultiGraph.readGraphFocusPhase (s : AugMultiGraph)
    (score : String → Nat → Nat → ℚ) (context : String)
    (ego_id focus_id : Nat) (positive_only : Bool)
    (fnbrs : List (Nat × ℚ)) (nodes : List Nat)
    (edges : List (Nat × Nat × ℚ)) :
    AugMultiGraph × List Nat × List (Nat × Nat × ℚ) :=
  fnbrs.foldl (fun acc p =>
    let s := acc.1
    let nodes := acc.2.1
    let edges := acc.2.2
    let dst_id := p.1
    let fw := p.2
    let dk := s.kindOfId dst_id
    if dk = NodeKind.User then
      if positive_only = true then
        let s' := (s.graph_from context).1
        if score context ego_id dst_id ≤ 0 then (s', nodes, edges)
        else (s', addImNode nodes dst_id, edges ++ [(focus_id, dst_id, fw)])
      else (s, addImNode nodes dst_id, edges ++ [(focus_id, dst_id, fw)])
    else if dk = NodeKind.Comment ∨ dk = NodeKind.Beacon then
      let (s', dnbrs) := s.all_neighbors_normalized context dst_id
      dnbrs.foldl (fun acc2 q =>
        let s := acc2.1
        let nodes := acc2.2.1
        let edges := acc2.2.2
        if (positive_only = true ∧ q.2 ≤ 0) ∨ q.1 = focus_id ∨
            s.kindOfId q.1 ≠ NodeKind.User then (s, nodes, edges)
        else (s, addImNode nodes q.1,
          edges ++ [(focus_id, q.1, contract_weight fw q.2)])) (s', nodes, edges)
    else (s, nodes, edges)) (s, nodes, edges)

/-- The shortest-path post-processing of read_graph (operations.rs
lines 896-927): contract every hop through a non-User node on the
ego-to-focus path.  The path itself is produced by the A* module
(src/astar.rs, a repository file not under src/); modelled from the
spec, the search outcome is taken as the parameter `pathO`. -/
def AugMultiGraph.readGraphPathEdges (s : AugMultiGraph) (context : String)
    (pathO : List Nat) : AugMultiGraph × List (Nat × Nat × ℚ) :=
  (List.range (pathO.length - 1)).foldl (fun acc k =>
    let s := acc.1
    let edges := acc.2
    let a := pathO.getD k 0
    let b := pathO.getD (k + 1) 0
    let a_kind := s.kindOfId a
    let b_kind := s.kindOfId b
    let (s1, a_b_weight) := s.edge_weight_normalized context a b
    if k + 2 = pathO.length then
      if a_kind = NodeKind.User then (s1, edges ++ [(a, b, a_b_weight)])
      else (s1, edges)
    else if b_kind ≠ NodeKind.User then
      let c := pathO.getD (k + 2) 0
      let (s2, b_c_weight) := s1.edge_weight_normalized context b c
      (s2, edges ++ [(a, c, contract_weight a_b_weight b_c_weight)])
    else if a_kind = NodeKind.User then (s1, edges ++ [(a, b, a_b_weight)])
    else (s1, edges)) (s, [])

/-- The final-array construction of read_graph (operations.rs lines
967-998): enumerate the in-memory graph, drop weights within EPSILON
of zero, and keep the first edge for every (src, dst) pair. -/
def readGraphBuildFinal (nodes : List Nat) (edges : List (Nat × Nat × ℚ)) :
    List (Nat × Nat × ℚ) :=
  nodes.foldl (fun acc src =>
    (edges.filter (fun e => decide (e.1 = src))).foldl (fun acc e =>
      if -EPSILON < e.2.2 ∧ e.2.2 < EPSILON then acc
      else if acc.any (fun x => x.1 = e.1 && x.2.1 = e.2.1) then acc
      else acc ++ [e]) acc) []

/-- read_graph.  `score` models get_score_or_recalculate and `pathO`
the A* search result (see readGraphPathEdges). -/
def AugMultiGraph.read_graph (s : AugMultiGraph)
    (score : String → Nat → Nat → ℚ) (pathO : List Nat)
    (context ego focus : String) (positive_only : Bool) (index count : Nat) :
    AugMultiGraph × List (String × String × ℚ) :=
  if (lookupA s.contexts context).isNone then (s, [])
  else if s.node_exists ego = false then (s, [])
  else if s.node_exists focus = false then (s, [])
  else
    let (s1, ego_id) := s.find_or_add_node_by_name ego
    let (s2, focus_id) := s1.find_or_add_node_by_name focus
    let (s3, fnbrs) := s2.all_neighbors_normalized context focus_id
    let (s4, nodes1, edges1) :=
      s3.readGraphFocusPhase score context ego_id focus_id positive_only
        fnbrs [focus_id] []
    let (s5, nodes2, edges2) :=
      if ego_id = focus_id then (s4, nodes1, edges1)
      else
        let (s5, pe) := s4.readGraphPathEdges context pathO
        (s5, pe.foldl (fun nodes e => addImNode (addImNode nodes e.1) e.2.1) nodes1,
          edges1 ++ pe)
    let edges3 := edges2.filter (fun e => decide (e.1 ≠ e.2.1))
    let finalEdges := readGraphBuildFinal nodes2 edges3
    let sorted := sortDescBy (fun e => ratAbs e.2.2) finalEdges
    (s5, ((sorted.drop index).take count).map (fun e =>
      (s5.nameOfId e.1, s5.nameOfId e.2.1, e.2.2)))

--  ================================================================
--    Beacon marking (operations.rs lines 1124-1188)
--  ================================================================

/-- The loop body of write_mark_beacons (operations.rs lines
1134-1144).  `score` models get_score_or_recalculate; its graph_from
side effect on a missing context is applied before each score check. -/
def markStep (score : String → Nat → Nat → ℚ) (context : String)
    (src_id : Nat) (mark : Marks) (s : AugMultiGraph) (b : Nat) : AugMultiGraph :=
  if s.kindOfId b ≠ NodeKind.Beacon then s
  else
    let s' := (s.graph_from context).1
    if score context src_id b < EPSILON then s'
    else
      { s' with
          node_infos := s'.node_infos.set b
            { s'.node_info_from_id b with
                marks := bloom_filter_add (s'.marksOfId b) mark } }

/-- write_mark_beacons.  `bits` models bloom_filter_bits, a pure
function of (context, name) built on std's DefaultHasher (external
std code; only its determinism is relied upon). -/
def AugMultiGraph.write_mark_beacons (s : AugMultiGraph)
    (bits : String → String → Marks) (score : String → Nat → Nat → ℚ)
    (context src : String) : AugMultiGraph :=
  let (s1, src_id) := s.find_or_add_node_by_name src
  let mark := bits context src
  (List.range s1.node_count).foldl (markStep score context src_id mark) s1

/-- The loop body of read_unmarked_beacons (operations.rs lines
1169-1183). -/
def unmarkedStep (score : String → Nat → Nat → ℚ) (context : String)
    (src_id : Nat) (mark : Marks) (acc : AugMultiGraph × List (String × ℚ))
    (b : Nat) : AugMultiGraph × List (String × ℚ) :=
  let s := acc.1
  let v := acc.2
  if s.kindOfId b ≠ NodeKind.Beacon then (s, v)
  else
    let s' := (s.graph_from context).1
    let sc := score context src_id b
    if sc < EPSILON then (s', v)
    else if bloom_filter_contains (s'.marksOfId b) mark then (s', v)
    else (s', v ++ [(s'.nameOfId b, sc)])

/-- read_unmarked_beacons. -/
def AugMultiGraph.read_unmarked_beacons (s : AugMultiGraph)
    (bits : String → String → Marks) (score : String → Nat → Nat → ℚ)
    (context src : String) : AugMultiGraph × List (String × ℚ) :=
  if (lookupA s.contexts context).isNone then (s, [])
  else if s.node_exists src = false then (s, [])
  else
    let (s1, src_id) := s.find_or_add_node_by_name src
    let mark := bits context src
    let (s2, v) := (List.range s1.node_count).foldl
      (unmarkedStep score context src_id mark) (s1, ([] : List (String × ℚ)))
    (s2, sortDescBy Prod.snd v)

--  ================================================================
--    Operation sequences
--  ================================================================

/-- The write surface of the engine as an operation language; the
estimator-dependent inputs of write_mark_beacons are carried inside
the constructor.  write_reset is deliberately absent: every claim
about operation sequences holds until a reset. -/
inductive Op : Type
  | setEdge (context : String) (src dst : Nat) (w : ℚ)
  | putEdge (context src dst : String) (w : ℚ)
  | deleteEdge (context src dst : String)
  | deleteNode (context node : String)
  | createContext (context : String)
  | markBeacons (bits : String → String → Marks)
      (score : String → Nat → Nat → ℚ) (context src : String)

def Op.apply (s : AugMultiGraph) : Op → AugMultiGraph
  | Op.setEdge context src dst w => s.set_edge context src dst w
  | Op.putEdge context src dst w => s.write_put_edge context src dst w
  | Op.deleteEdge context src dst => s.write_delete_edge context src dst
  | Op.deleteNode context node => s.write_delete_node context node
  | Op.createContext context => s.write_create_context context
  | Op.markBeacons bits score context src => s.write_mark_beacons bits score context src

def applyOps (s : AugMultiGraph) (l : List Op) : AugMultiGraph :=
  l.foldl Op.apply s

/-- The four edge-store operations named by the composition claim,
restricted to a non-null target context. -/
def Op.nonNullEdgeOp : Op → Bool
  | Op.setEdge context _ _ _ => context ≠ ""
  | Op.putEdge context _ _ _ => context ≠ ""
  | Op.deleteEdge context _ _ => context ≠ ""
  | Op.deleteNode context _ => context ≠ ""
  | Op.createContext _ => false
  | Op.markBeacons _ _ _ _ => false

--  ================================================================
--    Invariant predicates
--  ================================================================

/-- The weight stored for (src, dst) in a named context; 0 when the
context does not exist. -/
def ctxWeight (s : AugMultiGraph) (context : String) (src dst : Nat) : ℚ :=
  match lookupA s.contexts context with
  | some g => g.edge_weight src dst
  | none => 0

/-- The weight stored for (src, dst) in the null context. -/
def nullWeight (s : AugMultiGraph) (src dst : Nat) : ℚ :=
  ctxWeight s "" src dst

/-- The sum of the weights stored for (src, dst) over all non-null
contexts. -/
def contextsSum (s : AugMultiGraph) (src dst : Nat) : ℚ :=
  wSum ((s.contexts.filter (fun p => decide (p.1 ≠ ""))).map
    (fun p => p.2.edge_weight src dst))

/-- Registry well-formedness: the info array matches node_count, every
registered name maps to an in-range id carrying that name and the kind
derived from it, and every allocated id is registered under its name.
This holds for every state the service reaches from AugMultiGraph::new. -/
def WF (s : AugMultiGraph) : Prop :=
  s.node_infos.length = s.node_count ∧
  (∀ p ∈ s.node_ids, p.2 < s.node_count ∧ s.nameOfId p.2 = p.1 ∧
    s.kindOfId p.2 = kind_from_name p.1) ∧
  (∀ id, id < s.node_count → lookupA s.node_ids (s.nameOfId id) = some id)

instance : DecidablePred WF := fun s => by
  unfold WF
  infer_instance

/-- The non-null-context weight sum, generalized over a context list. -/
def ctxListSum (l : List (String × MRGraph)) (src dst : Nat) : ℚ :=
  ((l.filter (fun p => decide (p.1 ≠ ""))).map
    (fun p => p.2.edge_weight src dst)).sum

/-- Bitwise containment of one mark set in another. -/
def marksLe (a b : Marks) : Prop := ∀ i, a i ||| b i = b i

/-- What every engine operation preserves about the node registry:
the id space only grows, registered names keep their ids, and
allocated nodes keep their name and kind while their mark sets only
gain bits. -/
def RegPreserve (s t : AugMultiGraph) : Prop :=
  s.node_count ≤ t.node_count ∧
  (∀ n id, lookupA s.node_ids n = some id → lookupA t.node_ids n = some id) ∧
  (∀ id, id < s.node_count →
    t.nameOfId id = s.nameOfId id ∧ t.kindOfId id = s.kindOfId id ∧
    marksLe (s.marksOfId id) (t.marksOfId id))

/-- The inductive invariant behind the composition property: the info
array matches node_count, context names are unique, and for every
edge whose source is not a User node the null-context weight equals
the sum over the non-null contexts. -/
def CompInv (s : AugMultiGraph) : Prop :=
  s.node_infos.length = s.node_count ∧
  (keysA s.contexts).Nodup ∧
  ∀ src dst, s.kindOfId src ≠ NodeKind.User →
    nullWeight s src dst = contextsSum s src dst

--  ================================================================
--    Arithmetic bridge lemmas
--  ================================================================

theorem wAdd_eq (a b : ℚ) : wAdd a b = a + b := by
  unfold wAdd
  rw [Rat.divInt_eq_div]
  push_cast
  conv_rhs => rw [← Rat.num_div_den a, ← Rat.num_div_den b]
  have ha : ((a.den : ℚ)) ≠ 0 := by positivity
  have hb : ((b.den : ℚ)) ≠ 0 := by positivity
  field_simp

theorem wMul_eq (a b : ℚ) : wMul a b = a * b := by
  unfold wMul
  rw [Rat.divInt_eq_div]
  push_cast
  conv_rhs => rw [← Rat.num_div_den a, ← Rat.num_div_den b]
  have ha : ((a.den : ℚ)) ≠ 0 := by positivity
  have hb : ((b.den : ℚ)) ≠ 0 := by positivity
  field_simp

theorem wSub_eq (a b : ℚ) : wSub a b = a - b := by
  unfold wSub
  rw [wAdd_eq, sub_eq_add_neg]

theorem wDiv_eq (a b : ℚ) : wDiv a b = a / b := by
  unfold wDiv
  by_cases hb : b = 0
  · subst hb
    simp
  · rw [Rat.divInt_eq_div]
    push_cast
    conv_rhs => rw [← Rat.num_div_den a, ← Rat.num_div_den b]
    have ha : ((a.den : ℚ)) ≠ 0 := by positivity
    have hb2 : ((b.den : ℚ)) ≠ 0 := by positivity
    have hbn : ((b.num : ℚ)) ≠ 0 := by simpa using Rat.num_ne_zero.mpr hb
    field_simp

theorem wSum_eq (l : List ℚ) : wSum l = l.sum := by
  induction l with
  | nil => rfl
  | cons x t ih =>
    unfold wSum at ih ⊢
    simp [List.foldr_cons, wAdd_eq, ih, List.sum_cons]

theorem ratAbs_eq_abs (q : ℚ) : ratAbs q = |q| := by
  unfold ratAbs
  rcases lt_or_le q 0 with h | h
  · rw [if_pos h, abs_of_neg h]
  · rw [if_neg (not_lt.mpr h), abs_of_nonneg h]

--  ================================================================
--    Association-list lemmas
--  ================================================================

theorem lookupA_insertA {κ β : Type} [DecidableEq κ] (l : List (κ × β))
    (k k' : κ) (v : β) :
    lookupA (insertA l k v) k' = if k = k' then some v else lookupA l k' := by
  induction l with
  | nil => simp [insertA, lookupA]
  | cons p t ih =>
    obtain ⟨a, b⟩ := p
    by_cases hak : a = k
    · subst hak
      simp only [insertA, if_pos rfl, lookupA]
      by_cases hkk : a = k' <;> simp [hkk, lookupA]
    · simp only [insertA, if_neg hak, lookupA]
      by_cases hak' : a = k'
      · subst hak'
        have hka : ¬ k = a := fun h => hak h.symm
        simp [hka]
      · simp [hak', ih]

theorem lookupA_eraseA {κ β : Type} [DecidableEq κ] (l : List (κ × β)) (k k' : κ) :
    lookupA (eraseA l k) k' = if k = k' then none else lookupA l k' := by
  induction l with
  | nil => simp [eraseA, lookupA]
  | cons p t ih =>
    obtain ⟨a, b⟩ := p
    by_cases hak : a = k
    · subst hak
      have : eraseA ((a, b) :: t) a = eraseA t a := by simp [eraseA]
      rw [this, ih]
      by_cases hkk : a = k' <;> simp [hkk, lookupA]
    · have : eraseA ((a, b) :: t) k = (a, b) :: eraseA t k := by simp [eraseA, hak]
      rw [this]
      simp only [lookupA]
      by_cases hak' : a = k'
      · subst hak'
        have hka : ¬ k = a := fun h => hak h.symm
        simp [hka]
      · simp [hak', ih]

theorem lookupA_modifyA {κ β : Type} [DecidableEq κ] (l : List (κ × β)) (k k' : κ)
    (f : β → β) :
    lookupA (modifyA l k f) k' =
      if k = k' then Option.map f (lookupA l k) else lookupA l k' := by
  induction l with
  | nil => simp [modifyA, lookupA]
  | cons p t ih =>
    obtain ⟨a, b⟩ := p
    by_cases hak : a = k
    · subst hak
      simp only [modifyA, List.map_cons, if_pos rfl]
      by_cases hkk : a = k'
      · subst hkk
        simp [lookupA]
      · simp only [lookupA, if_neg hkk]
        rw [← modifyA, ih]
        simp [hkk]
    · simp only [modifyA, List.map_cons, if_neg hak]
      by_cases hak' : a = k'
      · subst hak'
        have hka : ¬ k = a := fun h => hak h.symm
        simp [lookupA, hka]
      · simp only [lookupA, if_neg hak']
        rw [← modifyA, ih]
        simp [lookupA, hak]

theorem lookupA_mapVal {κ β : Type} [DecidableEq κ] (l : List (κ × β)) (k : κ)
    (f : β → β) :
    lookupA (l.map (fun p => (p.1, f p.2))) k = Option.map f (lookupA l k) := by
  induction l with
  | nil => simp [lookupA]
  | cons p t ih =>
    obtain ⟨a, b⟩ := p
    by_cases hak : a = k <;> simp [lookupA, hak, ih]

theorem lookupA_mem {κ β : Type} [DecidableEq κ] {l : List (κ × β)} {k : κ} {v : β}
    (h : lookupA l k = some v) : (k, v) ∈ l := by
  induction l with
  | nil => simp [lookupA] at h
  | cons p t ih =>
    obtain ⟨a, b⟩ := p
    by_cases hak : a = k
    · subst hak
      simp [lookupA] at h
      simp [h]
    · simp [lookupA, hak] at h
      exact List.mem_cons_of_mem _ (ih h)

theorem insertA_of_lookup_none {κ β : Type} [DecidableEq κ] {l : List (κ × β)}
    {k : κ} (v : β) (h : lookupA l k = none) : insertA l k v = l ++ [(k, v)] := by
  induction l with
  | nil => simp [insertA]
  | cons p t ih =>
    obtain ⟨a, b⟩ := p
    by_cases hak : a = k
    · subst hak
      simp [lookupA] at h
    · simp [lookupA, hak] at h
      simp [insertA, hak, ih h]

theorem keysA_modifyA {κ β : Type} [DecidableEq κ] (l : List (κ × β)) (k : κ)
    (f : β → β) : keysA (modifyA l k f) = keysA l := by
  induction l with
  | nil => rfl
  | cons p t ih =>
    obtain ⟨a, b⟩ := p
    by_cases hak : a = k <;>
      simp only [modifyA, keysA, List.map_cons, if_pos, if_neg, hak] <;>
      simpa [keysA, modifyA] using ih

theorem keysA_mapVal {κ β : Type} [DecidableEq κ] (l : List (κ × β)) (f : β → β) :
    keysA (l.map (fun p => (p.1, f p.2))) = keysA l := by
  simp [keysA, List.map_map]

theorem lookupA_none_of_not_mem_keys {κ β : Type} [DecidableEq κ]
    {l : List (κ × β)} {k : κ} (h : k ∉ keysA l) : lookupA l k = none := by
  induction l with
  | nil => rfl
  | cons p t ih =>
    obtain ⟨a, b⟩ := p
    simp [keysA] at h
    have h1 : ¬ a = k := fun hh => h.1 hh.symm
    have h2 : k ∉ keysA t := by
      simp [keysA]
      intro x hx
      exact h.2 x hx
    simp [lookupA, h1, ih h2]

theorem not_mem_keys_of_lookupA_none {κ β : Type} [DecidableEq κ]
    {l : List (κ × β)} {k : κ} (h : lookupA l k = none) : k ∉ keysA l := by
  induction l with
  | nil => simp [keysA]
  | cons p t ih =>
    obtain ⟨a, b⟩ := p
    by_cases hak : a = k
    · subst hak
      simp [lookupA] at h
    · simp [lookupA, hak] at h
      have := ih h
      simp [keysA] at this ⊢
      exact ⟨fun hh => hak hh.symm, this⟩

theorem keysA_insertA_of_some {κ β : Type} [DecidableEq κ] {l : List (κ × β)}
    {k : κ} {w : β} (v : β) (h : lookupA l k = some w) :
    keysA (insertA l k v) = keysA l := by
  induction l with
  | nil => simp [lookupA] at h
  | cons p t ih =>
    obtain ⟨a, b⟩ := p
    by_cases hak : a = k
    · subst hak
      simp [insertA, keysA]
    · simp [lookupA, hak] at h
      simp [insertA, hak, keysA] at ih ⊢
      exact ih h

theorem nodup_keysA_insertA {κ β : Type} [DecidableEq κ] {l : List (κ × β)}
    (k : κ) (v : β) (h : (keysA l).Nodup) : (keysA (insertA l k v)).Nodup := by
  cases hl : lookupA l k with
  | some w => rw [keysA_insertA_of_some v hl] ; exact h
  | none =>
    rw [insertA_of_lookup_none v hl]
    have hk : k ∉ keysA l := not_mem_keys_of_lookupA_none hl
    simp [keysA] at h hk ⊢
    exact List.Nodup.append h (by simp) (by simpa [List.disjoint_singleton] using hk)

theorem modifyA_of_lookup_none {κ β : Type} [DecidableEq κ] {l : List (κ × β)}
    {k : κ} (f : β → β) (h : lookupA l k = none) : modifyA l k f = l := by
  induction l with
  | nil => rfl
  | cons p t ih =>
    obtain ⟨a, b⟩ := p
    by_cases hak : a = k
    · subst hak
      simp [lookupA] at h
    · simp [lookupA, hak] at h
      simp [modifyA, hak] at ih ⊢
      exact ih h

--  ================================================================
--    MRGraph lemmas
--  ================================================================

theorem MRGraph.edge_weight_set_edge (g : MRGraph) (s d a b : Nat) (w : ℚ) :
    (g.set_edge s d w).edge_weight a b =
      if (s, d) = (a, b) then w else g.edge_weight a b := by
  unfold MRGraph.set_edge MRGraph.edge_weight
  by_cases hw : w = 0
  · simp only [if_pos hw]
    rw [lookupA_eraseA]
    by_cases h : ((s, d) : Nat × Nat) = (a, b)
    · simp [h, hw]
    · simp [h]
  · simp only [if_neg hw]
    rw [lookupA_insertA]
    by_cases h : ((s, d) : Nat × Nat) = (a, b) <;> simp [h]

theorem MRGraph.edge_weight_set_edge_ne (g : MRGraph) {s d a b : Nat} (w : ℚ)
    (h : ¬ (s = a ∧ d = b)) :
    (g.set_edge s d w).edge_weight a b = g.edge_weight a b := by
  rw [MRGraph.edge_weight_set_edge]
  have hne : ¬ ((s, d) : Nat × Nat) = (a, b) := by
    intro hh
    rw [Prod.ext_iff] at hh
    exact h ⟨hh.1, hh.2⟩
  rw [if_neg hne]

theorem MRGraph.edge_weight_set_edge_self (g : MRGraph) (s d : Nat) (w : ℚ) :
    (g.set_edge s d w).edge_weight s d = w := by
  rw [MRGraph.edge_weight_set_edge]
  simp

theorem MRGraph.edge_weight_ensure_node (g : MRGraph) (id a b : Nat) :
    (g.ensure_node id).edge_weight a b = g.edge_weight a b := by
  unfold MRGraph.ensure_node
  by_cases h : id < g.nextId <;> simp [h, MRGraph.edge_weight]

theorem MRGraph.edge_weight_empty_like (n a b : Nat) :
    (MRGraph.mk n []).edge_weight a b = 0 := rfl

--  ================================================================
--    Context-sum lemmas
--  ================================================================

theorem contextsSum_eq (s : AugMultiGraph) (src dst : Nat) :
    contextsSum s src dst = ctxListSum s.contexts src dst := by
  unfold contextsSum ctxListSum
  rw [wSum_eq]

theorem ctxListSum_nil (src dst : Nat) : ctxListSum [] src dst = 0 := rfl

theorem ctxListSum_cons (a : String) (b : MRGraph) (t : List (String × MRGraph))
    (src dst : Nat) :
    ctxListSum ((a, b) :: t) src dst =
      (if a = "" then 0 else b.edge_weight src dst) + ctxListSum t src dst := by
  by_cases h : a = "" <;> simp [ctxListSum, h, List.filter_cons]

theorem ctxListSum_append (l1 l2 : List (String × MRGraph)) (src dst : Nat) :
    ctxListSum (l1 ++ l2) src dst = ctxListSum l1 src dst + ctxListSum l2 src dst := by
  simp [ctxListSum, List.filter_append]

theorem ctxListSum_modifyA_null (l : List (String × MRGraph)) (f : MRGraph → MRGraph)
    (src dst : Nat) :
    ctxListSum (modifyA l "" f) src dst = ctxListSum l src dst := by
  induction l with
  | nil => rfl
  | cons p t ih =>
    obtain ⟨a, b⟩ := p
    by_cases ha : a = ""
    · subst ha
      simp only [modifyA, List.map_cons, if_pos rfl]
      rw [← modifyA]
      rw [ctxListSum_cons, ctxListSum_cons, ih]
      simp
    · simp only [modifyA, List.map_cons, if_neg ha]
      rw [← modifyA]
      rw [ctxListSum_cons, ctxListSum_cons, ih]

theorem ctxListSum_modifyA_of_some (l : List (String × MRGraph)) (k : String)
    (f : MRGraph → MRGraph) (src dst : Nat) (hk : k ≠ "")
    (hnd : (keysA l).Nodup) (g : MRGraph) (hg : lookupA l k = some g) :
    ctxListSum (modifyA l k f) src dst =
      ctxListSum l src dst - g.edge_weight src dst + (f g).edge_weight src dst := by
  induction l with
  | nil => simp [lookupA] at hg
  | cons p t ih =>
    obtain ⟨a, b⟩ := p
    by_cases hak : a = k
    · subst hak
      simp only [lookupA, if_pos rfl] at hg
      injection hg with hg
      subst hg
      simp only [modifyA, List.map_cons, if_pos rfl]
      rw [← modifyA]
      have hnt : a ∉ keysA t := by
        simp [keysA] at hnd ⊢
        intro x hx
        exact hnd.1 x hx
      rw [modifyA_of_lookup_none f (lookupA_none_of_not_mem_keys hnt)]
      simp only [if_true]
      rw [ctxListSum_cons, ctxListSum_cons]
      rw [if_neg hk, if_neg hk]
      ring
    · simp only [lookupA, if_neg hak] at hg
      simp only [modifyA, List.map_cons, if_neg hak]
      rw [← modifyA]
      rw [ctxListSum_cons, ctxListSum_cons]
      have hnd' : (keysA t).Nodup := by
        simp [keysA] at hnd ⊢
        exact hnd.2
      rw [ih hnd' hg]
      ring

theorem ctxListSum_mapVal (l : List (String × MRGraph)) (f : MRGraph → MRGraph)
    (src dst : Nat) (hf : ∀ g, (f g).edge_weight src dst = g.edge_weight src dst) :
    ctxListSum (l.map (fun p => (p.1, f p.2))) src dst = ctxListSum l src dst := by
  induction l with
  | nil => rfl
  | cons p t ih =>
    obtain ⟨a, b⟩ := p
    simp only [List.map_cons]
    rw [ctxListSum_cons, ctxListSum_cons, ih, hf]

--  ================================================================
--    create_context and graph_from lemmas
--  ================================================================

theorem seed_inner_fold_edge_weight (x : Nat) (es : List (Nat × ℚ)) (g : MRGraph)
    (a b : Nat) (hxa : x ≠ a) :
    (es.foldl (fun g p => g.set_edge x p.1 p.2) g).edge_weight a b =
      g.edge_weight a b := by
  induction es generalizing g with
  | nil => rfl
  | cons e t ih =>
    simp only [List.foldl_cons]
    rw [ih]
    exact MRGraph.edge_weight_set_edge_ne g e.2 (fun hc => hxa hc.1)

theorem seed_outer_fold_edge_weight (s : AugMultiGraph) (zero : MRGraph)
    (L : List Nat) (g : MRGraph) (a b : Nat)
    (ha : s.kindOfId a ≠ NodeKind.User) :
    (L.foldl (fun g src =>
        if s.kindOfId src = NodeKind.User then
          (zero.out_edges src).foldl (fun g p => g.set_edge src p.1 p.2) g
        else g) g).edge_weight a b = g.edge_weight a b := by
  induction L generalizing g with
  | nil => rfl
  | cons x t ih =>
    simp only [List.foldl_cons]
    rw [ih]
    by_cases hx : s.kindOfId x = NodeKind.User
    · rw [if_pos hx]
      exact seed_inner_fold_edge_weight x _ g a b (fun h => ha (h ▸ hx))
    · rw [if_neg hx]

theorem fresh_context_graph_edge_weight (s : AugMultiGraph) (context : String)
    (a b : Nat) (ha : s.kindOfId a ≠ NodeKind.User) :
    (s.fresh_context_graph context).edge_weight a b = 0 := by
  unfold AugMultiGraph.fresh_context_graph
  by_cases hc : context = ""
  · simp [hc, MRGraph.edge_weight, lookupA]
  · simp only [if_neg hc]
    cases hz : lookupA s.contexts "" with
    | none => simp [MRGraph.edge_weight, lookupA]
    | some zero =>
      simp only
      rw [seed_outer_fold_edge_weight s zero _ _ a b ha]
      simp [MRGraph.edge_weight, lookupA]

theorem fresh_context_graph_null (s : AugMultiGraph) (a b : Nat) :
    (s.fresh_context_graph "").edge_weight a b = 0 := by
  unfold AugMultiGraph.fresh_context_graph
  simp [MRGraph.edge_weight, lookupA]

theorem create_context_fields (s : AugMultiGraph) (context : String) :
    (s.create_context context).node_count = s.node_count ∧
    (s.create_context context).node_infos = s.node_infos ∧
    (s.create_context context).node_ids = s.node_ids := ⟨rfl, rfl, rfl⟩

theorem kindOfId_create_context (s : AugMultiGraph) (context : String) :
    (s.create_context context).kindOfId = s.kindOfId := rfl

theorem ctxWeight_create_self (s : AugMultiGraph) (context : String) (a b : Nat)
    (ha : s.kindOfId a ≠ NodeKind.User) :
    ctxWeight (s.create_context context) context a b = 0 := by
  unfold AugMultiGraph.create_context ctxWeight
  simp only
  rw [lookupA_insertA, if_pos rfl]
  exact fresh_context_graph_edge_weight s context a b ha

theorem ctxWeight_create_other (s : AugMultiGraph) (context c : String)
    (a b : Nat) (h : c ≠ context) :
    ctxWeight (s.create_context context) c a b = ctxWeight s c a b := by
  unfold AugMultiGraph.create_context ctxWeight
  simp only
  rw [lookupA_insertA, if_neg (fun hh => h hh.symm)]

theorem nullWeight_create_context (s : AugMultiGraph) (context : String)
    (a b : Nat) (hnone : lookupA s.contexts context = none) :
    nullWeight (s.create_context context) a b = nullWeight s a b := by
  unfold nullWeight
  by_cases hc : context = ""
  · subst hc
    unfold AugMultiGraph.create_context ctxWeight
    simp only
    rw [lookupA_insertA, if_pos rfl, hnone]
    simp only [fresh_context_graph_null]
  · rw [ctxWeight_create_other s context "" a b (fun h => hc h.symm)]

theorem contextsSum_create_context (s : AugMultiGraph) (context : String)
    (a b : Nat) (hnone : lookupA s.contexts context = none)
    (ha : s.kindOfId a ≠ NodeKind.User) :
    contextsSum (s.create_context context) a b = contextsSum s a b := by
  rw [contextsSum_eq, contextsSum_eq]
  show ctxListSum (insertA s.contexts context (s.fresh_context_graph context)) a b = _
  rw [insertA_of_lookup_none _ hnone, ctxListSum_append, ctxListSum_cons]
  rw [fresh_context_graph_edge_weight s context a b ha]
  simp [ctxListSum_nil]

theorem compinv_create_context (s : AugMultiGraph) (context : String)
    (h : CompInv s) (hnone : lookupA s.contexts context = none) :
    CompInv (s.create_context context) := by
  obtain ⟨hlen, hnd, hinv⟩ := h
  refine ⟨hlen, ?_, ?_⟩
  · show (keysA (insertA s.contexts context _)).Nodup
    exact nodup_keysA_insertA context _ hnd
  · intro a b ha
    rw [kindOfId_create_context] at ha
    rw [nullWeight_create_context s context a b hnone,
      contextsSum_create_context s context a b hnone (ha ·)]
    exact hinv a b ha

theorem graph_from_fst_of_some (s : AugMultiGraph) (context : String)
    (h : (lookupA s.contexts context).isSome = true) :
    (s.graph_from context).1 = s := by
  unfold AugMultiGraph.graph_from
  simp [h]

theorem graph_from_fst_of_none (s : AugMultiGraph) (context : String)
    (h : lookupA s.contexts context = none) :
    (s.graph_from context).1 = s.create_context context := by
  unfold AugMultiGraph.graph_from
  simp [h]

theorem graph_from_mem (s : AugMultiGraph) (context : String) :
    (lookupA (s.graph_from context).1.contexts context).isSome = true := by
  cases h : lookupA s.contexts context with
  | some g => rw [graph_from_fst_of_some s context (by simp [h])] ; simp [h]
  | none =>
    rw [graph_from_fst_of_none s context h]
    show (lookupA (insertA s.contexts context _) context).isSome = true
    rw [lookupA_insertA, if_pos rfl]
    rfl

theorem graph_from_preserves_some (s : AugMultiGraph) (context c : String)
    (h : (lookupA s.contexts c).isSome = true) :
    (lookupA (s.graph_from context).1.contexts c).isSome = true := by
  cases hc : lookupA s.contexts context with
  | some g => rw [graph_from_fst_of_some s context (by simp [hc])] ; exact h
  | none =>
    rw [graph_from_fst_of_none s context hc]
    show (lookupA (insertA s.contexts context _) c).isSome = true
    rw [lookupA_insertA]
    by_cases hcc : context = c
    · simp [hcc]
    · simp [hcc, h]

theorem kindOfId_graph_from (s : AugMultiGraph) (context : String) :
    (s.graph_from context).1.kindOfId = s.kindOfId := by
  cases h : lookupA s.contexts context with
  | some g => rw [graph_from_fst_of_some s context (by simp [h])]
  | none => rw [graph_from_fst_of_none s context h] ; rfl

theorem node_fields_graph_from (s : AugMultiGraph) (context : String) :
    (s.graph_from context).1.node_count = s.node_count ∧
    (s.graph_from context).1.node_infos = s.node_infos ∧
    (s.graph_from context).1.node_ids = s.node_ids := by
  cases h : lookupA s.contexts context with
  | some g => rw [graph_from_fst_of_some s context (by simp [h])] ; exact ⟨rfl, rfl, rfl⟩
  | none => rw [graph_from_fst_of_none s context h] ; exact ⟨rfl, rfl, rfl⟩

theorem nullWeight_graph_from (s : AugMultiGraph) (context : String) (a b : Nat) :
    nullWeight (s.graph_from context).1 a b = nullWeight s a b := by
  cases h : lookupA s.contexts context with
  | some g => rw [graph_from_fst_of_some s context (by simp [h])]
  | none =>
    rw [graph_from_fst_of_none s context h]
    exact nullWeight_create_context s context a b h

theorem contextsSum_graph_from (s : AugMultiGraph) (context : String) (a b : Nat)
    (ha : s.kindOfId a ≠ NodeKind.User) :
    contextsSum (s.graph_from context).1 a b = contextsSum s a b := by
  cases h : lookupA s.contexts context with
  | some g => rw [graph_from_fst_of_some s context (by simp [h])]
  | none =>
    rw [graph_from_fst_of_none s context h]
    exact contextsSum_create_context s context a b h ha

theorem compinv_graph_from (s : AugMultiGraph) (context : String)
    (h : CompInv s) : CompInv (s.graph_from context).1 := by
  cases hc : lookupA s.contexts context with
  | some g => rw [graph_from_fst_of_some s context (by simp [hc])] ; exact h
  | none => rw [graph_from_fst_of_none s context hc] ; exact compinv_create_context s context h hc

theorem graph_from_snd_edge_weight (s : AugMultiGraph) (context : String)
    (a b : Nat) :
    (s.graph_from context).2.edge_weight a b =
      ctxWeight (s.graph_from context).1 context a b := by
  unfold AugMultiGraph.graph_from ctxWeight
  simp only
  cases h : lookupA (if (lookupA s.contexts context).isSome = true then s
      else s.create_context context).contexts context with
  | some g => simp [h]
  | none => simp [h, MRGraph.edge_weight, lookupA]

--  ================================================================
--    find_or_add_node_by_name lemmas
--  ================================================================

theorem find_or_add_eq_of_some (s : AugMultiGraph) (name : String) (id : Nat)
    (h : lookupA s.node_ids name = some id) :
    s.find_or_add_node_by_name name =
      ({ s with contexts := s.contexts.map (fun p => (p.1, p.2.ensure_node id)) },
        id) := by
  unfold AugMultiGraph.find_or_add_node_by_name
  rw [h]

theorem find_or_add_eq_of_none (s : AugMultiGraph) (name : String)
    (h : lookupA s.node_ids name = none) :
    s.find_or_add_node_by_name name =
      ({ s with
          node_count := s.node_count + 1,
          node_infos :=
            (resizeL s.node_infos (s.node_count + 1) NodeInfo.dflt).set s.node_count
              ⟨kind_from_name name, name, marksZero⟩,
          node_ids := insertA s.node_ids name s.node_count,
          contexts :=
            s.contexts.map (fun p => (p.1, p.2.ensure_node s.node_count)) },
        s.node_count) := by
  unfold AugMultiGraph.find_or_add_node_by_name
  rw [h]

theorem resizeL_append_one {α : Type} (l : List α) (d : α) :
    resizeL l (l.length + 1) d = l ++ [d] := by
  unfold resizeL
  rw [if_pos (by omega)]
  simp

theorem set_append_length {α : Type} (l : List α) (d v : α) :
    (l ++ [d]).set l.length v = l ++ [v] := by
  induction l with
  | nil => rfl
  | cons x t ih => simp [List.set, ih]

theorem ctxWeight_mapVal (s : AugMultiGraph) (c : String) (a b : Nat)
    (f : MRGraph → MRGraph)
    (hf : ∀ g, (f g).edge_weight a b = g.edge_weight a b) :
    ctxWeight { s with contexts := s.contexts.map (fun p => (p.1, f p.2)) } c a b =
      ctxWeight s c a b := by
  unfold ctxWeight
  simp only
  rw [lookupA_mapVal]
  cases lookupA s.contexts c <;> simp [hf]

theorem nullWeight_eq_ctxWeight (s : AugMultiGraph) (a b : Nat) :
    nullWeight s a b = ctxWeight s "" a b := rfl

/-- Fields of the state returned by find_or_add, in the found case. -/
theorem find_or_add_fst_of_some (s : AugMultiGraph) (name : String) (id : Nat)
    (h : lookupA s.node_ids name = some id) :
    (s.find_or_add_node_by_name name).1.node_count = s.node_count ∧
    (s.find_or_add_node_by_name name).1.node_infos = s.node_infos ∧
    (s.find_or_add_node_by_name name).1.node_ids = s.node_ids := by
  rw [find_or_add_eq_of_some s name id h]
  exact ⟨rfl, rfl, rfl⟩

/-- ctxWeight is insensitive to a value-map of the context list that
preserves the weight of the inspected pair. -/
theorem ctxWeight_states_mapVal (s t : AugMultiGraph) (c : String) (a b : Nat)
    (f : MRGraph → MRGraph)
    (h : t.contexts = s.contexts.map (fun p => (p.1, f p.2)))
    (hf : ∀ g, (f g).edge_weight a b = g.edge_weight a b) :
    ctxWeight t c a b = ctxWeight s c a b := by
  unfold ctxWeight
  rw [h, lookupA_mapVal]
  cases lookupA s.contexts c <;> simp [hf]

theorem contextsSum_states_mapVal (s t : AugMultiGraph) (a b : Nat)
    (f : MRGraph → MRGraph)
    (h : t.contexts = s.contexts.map (fun p => (p.1, f p.2)))
    (hf : ∀ g, (f g).edge_weight a b = g.edge_weight a b) :
    contextsSum t a b = contextsSum s a b := by
  rw [contextsSum_eq, contextsSum_eq, h, ctxListSum_mapVal _ _ a b hf]

theorem compinv_find_or_add (s : AugMultiGraph) (name : String)
    (h : CompInv s) : CompInv (s.find_or_add_node_by_name name).1 := by
  obtain ⟨hlen, hnd, hinv⟩ := h
  cases hl : lookupA s.node_ids name with
  | some id =>
    rw [find_or_add_eq_of_some s name id hl]
    refine ⟨hlen, ?_, fun a b ha => ?_⟩
    · show (keysA (s.contexts.map (fun p => (p.1, MRGraph.ensure_node p.2 id)))).Nodup
      rw [keysA_mapVal s.contexts (fun g => g.ensure_node id)]
      exact hnd
    · rw [nullWeight_eq_ctxWeight,
        ctxWeight_states_mapVal s _ "" a b _ rfl
          (fun g => MRGraph.edge_weight_ensure_node g id a b),
        contextsSum_states_mapVal s _ a b _ rfl
          (fun g => MRGraph.edge_weight_ensure_node g id a b)]
      exact hinv a b ha
  | none =>
    rw [find_or_add_eq_of_none s name hl]
    have hinfos :
        (resizeL s.node_infos (s.node_count + 1) NodeInfo.dflt).set s.node_count
          (⟨kind_from_name name, name, marksZero⟩ : NodeInfo) =
        s.node_infos ++ [⟨kind_from_name name, name, marksZero⟩] := by
      rw [← hlen, resizeL_append_one, set_append_length]
    refine ⟨?_, ?_, fun a b ha => ?_⟩
    · show ((resizeL s.node_infos (s.node_count + 1) NodeInfo.dflt).set s.node_count
        ⟨kind_from_name name, name, marksZero⟩).length = s.node_count + 1
      rw [hinfos]
      simp [hlen]
    · show (keysA (s.contexts.map
        (fun p => (p.1, MRGraph.ensure_node p.2 s.node_count)))).Nodup
      rw [keysA_mapVal s.contexts (fun g => g.ensure_node s.node_count)]
      exact hnd
    · rw [nullWeight_eq_ctxWeight,
        ctxWeight_states_mapVal s _ "" a b _ rfl
          (fun g => MRGraph.edge_weight_ensure_node g s.node_count a b),
        contextsSum_states_mapVal s _ a b _ rfl
          (fun g => MRGraph.edge_weight_ensure_node g s.node_count a b)]
      refine hinv a b ?_
      intro hu
      apply ha
      show AugMultiGraph.kindOfId _ a = NodeKind.User
      unfold AugMultiGraph.kindOfId AugMultiGraph.node_info_from_id at hu ⊢
      simp only [hinfos]
      have hlt : a < s.node_infos.length := by
        by_contra hge
        rw [List.getElem?_eq_none (by omega)] at hu
        simp [NodeInfo.dflt] at hu
      rw [List.getElem?_append_left hlt]
      exact hu

--  ================================================================
--    modify_graph and set_edge lemmas
--  ================================================================

theorem modify_graph_of_some (s : AugMultiGraph) (context : String)
    (f : MRGraph → MRGraph) (h : (lookupA s.contexts context).isSome = true) :
    s.modify_graph context f = { s with contexts := modifyA s.contexts context f } := by
  unfold AugMultiGraph.modify_graph
  rw [graph_from_fst_of_some s context h]

theorem ctxWeight_of_lookup (s : AugMultiGraph) (c : String) (a b : Nat)
    (g : MRGraph) (hg : lookupA s.contexts c = some g) :
    ctxWeight s c a b = g.edge_weight a b := by
  unfold ctxWeight
  rw [hg]

theorem nullWeight_states_modifyA_key (s t : AugMultiGraph) (k : String)
    (f : MRGraph → MRGraph) (a b : Nat) (hk : k ≠ "")
    (h : t.contexts = modifyA s.contexts k f) :
    nullWeight t a b = nullWeight s a b := by
  unfold nullWeight ctxWeight
  rw [h, lookupA_modifyA, if_neg hk]

theorem nullWeight_states_modifyA_null (s t : AugMultiGraph)
    (f : MRGraph → MRGraph) (a b : Nat) (g : MRGraph)
    (hg : lookupA s.contexts "" = some g)
    (h : t.contexts = modifyA s.contexts "" f) :
    nullWeight t a b = (f g).edge_weight a b := by
  unfold nullWeight ctxWeight
  rw [h, lookupA_modifyA, if_pos rfl, hg]
  rfl

theorem contextsSum_states_modifyA_null (s t : AugMultiGraph)
    (f : MRGraph → MRGraph) (a b : Nat)
    (h : t.contexts = modifyA s.contexts "" f) :
    contextsSum t a b = contextsSum s a b := by
  rw [contextsSum_eq, contextsSum_eq, h, ctxListSum_modifyA_null]

theorem contextsSum_states_modifyA_key (s t : AugMultiGraph) (k : String)
    (f : MRGraph → MRGraph) (a b : Nat) (hk : k ≠ "")
    (hnd : (keysA s.contexts).Nodup) (g : MRGraph)
    (hg : lookupA s.contexts k = some g)
    (h : t.contexts = modifyA s.contexts k f) :
    contextsSum t a b =
      contextsSum s a b - g.edge_weight a b + (f g).edge_weight a b := by
  rw [contextsSum_eq, contextsSum_eq, h]
  exact ctxListSum_modifyA_of_some s.contexts k f a b hk hnd g hg

theorem compinv_set_edge (s : AugMultiGraph) (context : String) (x y : Nat)
    (w : ℚ) (h : CompInv s) (hctx : context ≠ "") :
    CompInv (s.set_edge context x y w) := by
  unfold AugMultiGraph.set_edge
  by_cases hu : s.kindOfId x = NodeKind.User
  · rw [if_pos hu]
    simp only [if_neg hctx]
    have h1 : CompInv (s.graph_from "").1 := compinv_graph_from s "" h
    have h2 : CompInv ((s.graph_from "").1.graph_from context).1 :=
      compinv_graph_from _ context h1
    set s2 := ((s.graph_from "").1.graph_from context).1 with hs2
    have hkinds : s2.kindOfId = s.kindOfId := by
      rw [hs2, kindOfId_graph_from, kindOfId_graph_from]
    refine ⟨h2.1, ?_, fun a b ha => ?_⟩
    · show (keysA (s2.contexts.map (fun p => (p.1, MRGraph.set_edge p.2 x y w)))).Nodup
      rw [keysA_mapVal s2.contexts (fun g => g.set_edge x y w)]
      exact h2.2.1
    · have ha2 : s2.kindOfId a ≠ NodeKind.User := ha
      have hax : ¬ (x = a ∧ y = b) := by
        intro hc
        apply ha2
        rw [hkinds, ← hc.1]
        exact hu
      have hf : ∀ g : MRGraph, (g.set_edge x y w).edge_weight a b = g.edge_weight a b :=
        fun g => MRGraph.edge_weight_set_edge_ne g w hax
      rw [nullWeight_eq_ctxWeight,
        ctxWeight_states_mapVal s2 _ "" a b _ rfl hf,
        contextsSum_states_mapVal s2 _ a b _ rfl hf]
      exact h2.2.2 a b ha2
  · rw [if_neg hu, if_neg hctx]
    have h1 : CompInv (s.graph_from "").1 := compinv_graph_from s "" h
    set s1 := (s.graph_from "").1 with hs1
    have h2 : CompInv (s1.graph_from context).1 := compinv_graph_from s1 context h1
    set s2 := (s1.graph_from context).1 with hs2
    have hkinds : s2.kindOfId = s.kindOfId := by
      rw [hs2, kindOfId_graph_from, hs1, kindOfId_graph_from]
    have hsome0 : (lookupA s2.contexts "").isSome = true := by
      rw [hs2]
      exact graph_from_preserves_some s1 context "" (graph_from_mem s "")
    have hsome1 : (lookupA s2.contexts context).isSome = true := by
      rw [hs2]
      exact graph_from_mem s1 context
    obtain ⟨g0, hg0⟩ := Option.isSome_iff_exists.mp hsome0
    obtain ⟨g1, hg1⟩ := Option.isSome_iff_exists.mp hsome1
    set null_w := (s.edge_weight "" x y).2 with hnw
    set old_w := (s1.edge_weight context x y).2 with how
    set f0 : MRGraph → MRGraph :=
      fun g => g.set_edge x y (wSub (wAdd null_w w) old_w) with hf0d
    set f1 : MRGraph → MRGraph := fun g => g.set_edge x y w with hf1d
    show CompInv ((s2.modify_graph "" f0).modify_graph context f1)
    have hnws : null_w = nullWeight s2 x y := by
      rw [hnw]
      show (s.graph_from "").2.edge_weight x y = _
      rw [graph_from_snd_edge_weight s "" x y, ← hs1, hs2, nullWeight_graph_from]
      rfl
    have hows : old_w = ctxWeight s2 context x y := by
      rw [how]
      show (s1.graph_from context).2.edge_weight x y = _
      rw [graph_from_snd_edge_weight s1 context x y, ← hs2]
    have hs3 : s2.modify_graph "" f0 = { s2 with contexts := modifyA s2.contexts "" f0 } :=
      modify_graph_of_some s2 "" f0 hsome0
    rw [hs3]
    set s3 : AugMultiGraph := { s2 with contexts := modifyA s2.contexts "" f0 } with hs3d
    have hctxs3 : s3.contexts = modifyA s2.contexts "" f0 := rfl
    have hg1' : lookupA s3.contexts context = some g1 := by
      rw [hctxs3, lookupA_modifyA, if_neg (fun hh => hctx hh.symm), hg1]
    have hsome1' : (lookupA s3.contexts context).isSome = true := by
      rw [hg1']
      rfl
    have hs4 : s3.modify_graph context f1 =
        { s3 with contexts := modifyA s3.contexts context f1 } :=
      modify_graph_of_some s3 context f1 hsome1'
    rw [hs4]
    set s4 : AugMultiGraph := { s3 with contexts := modifyA s3.contexts context f1 }
      with hs4d
    have hctxs4 : s4.contexts = modifyA s3.contexts context f1 := rfl
    have hnd3 : (keysA s3.contexts).Nodup := by
      rw [hctxs3, keysA_modifyA]
      exact h2.2.1
    refine ⟨h2.1, ?_, fun a b ha => ?_⟩
    · show (keysA s4.contexts).Nodup
      rw [hctxs4, keysA_modifyA]
      exact hnd3
    · have ha2 : s2.kindOfId a ≠ NodeKind.User := ha
      by_cases hab : x = a ∧ y = b
      · obtain ⟨hxa, hyb⟩ := hab
        subst hxa
        subst hyb
        have hnull4 : nullWeight s4 x y = wSub (wAdd null_w w) old_w := by
          rw [nullWeight_states_modifyA_key s3 s4 context f1 x y hctx hctxs4]
          have hl : lookupA s3.contexts "" = some (f0 g0) := by
            rw [hctxs3, lookupA_modifyA, if_pos rfl, hg0]
            rfl
          rw [nullWeight_eq_ctxWeight, ctxWeight_of_lookup s3 "" x y _ hl]
          exact MRGraph.edge_weight_set_edge_self g0 x y _
        have hsum4 : contextsSum s4 x y =
            contextsSum s2 x y - g1.edge_weight x y + w := by
          rw [contextsSum_states_modifyA_key s3 s4 context f1 x y hctx hnd3 g1 hg1'
            hctxs4]
          rw [contextsSum_states_modifyA_null s2 s3 f0 x y hctxs3]
          have hw1 : (f1 g1).edge_weight x y = w :=
            MRGraph.edge_weight_set_edge_self g1 x y w
          rw [hw1]
        rw [hnull4, hsum4]
        have hx2 : s2.kindOfId x ≠ NodeKind.User := by
          rw [hkinds]
          exact hu
        have hbase : nullWeight s2 x y = contextsSum s2 x y := h2.2.2 x y hx2
        rw [wSub_eq, wAdd_eq, hnws, hbase, hows, ctxWeight_of_lookup s2 context x y g1 hg1]
        ring
      · have hf : ∀ g : MRGraph, (f1 g).edge_weight a b = g.edge_weight a b :=
          fun g => MRGraph.edge_weight_set_edge_ne g w hab
        have hfd : ∀ g : MRGraph, (f0 g).edge_weight a b = g.edge_weight a b :=
          fun g => MRGraph.edge_weight_set_edge_ne g _ hab
        have hnull4 : nullWeight s4 a b = nullWeight s2 a b := by
          rw [nullWeight_states_modifyA_key s3 s4 context f1 a b hctx hctxs4]
          rw [nullWeight_states_modifyA_null s2 s3 f0 a b g0 hg0 hctxs3, hfd g0,
            nullWeight_eq_ctxWeight, ctxWeight_of_lookup s2 "" a b g0 hg0]
        have hsum4 : contextsSum s4 a b = contextsSum s2 a b := by
          rw [contextsSum_states_modifyA_key s3 s4 context f1 a b hctx hnd3 g1 hg1'
            hctxs4]
          rw [contextsSum_states_modifyA_null s2 s3 f0 a b hctxs3]
          rw [hf g1]
          ring
        rw [hnull4, hsum4]
        exact h2.2.2 a b ha2

theorem compinv_put_edge (s : AugMultiGraph) (context src dst : String) (w : ℚ)
    (h : CompInv s) (hctx : context ≠ "") :
    CompInv (s.write_put_edge context src dst w) := by
  unfold AugMultiGraph.write_put_edge
  exact compinv_set_edge _ context _ _ w
    (compinv_find_or_add _ dst (compinv_find_or_add s src h)) hctx

theorem compinv_delete_edge (s : AugMultiGraph) (context src dst : String)
    (h : CompInv s) (hctx : context ≠ "") :
    CompInv (s.write_delete_edge context src dst) := by
  unfold AugMultiGraph.write_delete_edge
  by_cases hc : s.node_exists src = false ∨ s.node_exists dst = false
  · rw [if_pos hc]
    exact h
  · rw [if_neg hc]
    exact compinv_set_edge _ context _ _ 0
      (compinv_find_or_add _ dst (compinv_find_or_add s src h)) hctx

theorem compinv_fold_set_edge (context : String) (id : Nat)
    (l : List (Nat × ℚ)) (s : AugMultiGraph) (h : CompInv s)
    (hctx : context ≠ "") :
    CompInv (l.foldl (fun s p => s.set_edge context id p.1 0) s) := by
  induction l generalizing s with
  | nil => exact h
  | cons p t ih =>
    simp only [List.foldl_cons]
    exact ih _ (compinv_set_edge s context id p.1 0 h hctx)

theorem compinv_delete_node (s : AugMultiGraph) (context node : String)
    (h : CompInv s) (hctx : context ≠ "") :
    CompInv (s.write_delete_node context node) := by
  unfold AugMultiGraph.write_delete_node
  by_cases hc : s.node_exists node = false
  · rw [if_pos hc]
    exact h
  · rw [if_neg hc]
    have h1 : CompInv (s.find_or_add_node_by_name node).1 := compinv_find_or_add s node h
    have h2 : CompInv ((s.find_or_add_node_by_name node).1.graph_from context).1 :=
      compinv_graph_from _ context h1
    exact compinv_fold_set_edge context _ _ _ h2 hctx

theorem compinv_op_apply (s : AugMultiGraph) (op : Op) (h : CompInv s)
    (hop : op.nonNullEdgeOp = true) : CompInv (op.apply s) := by
  cases op with
  | setEdge context src dst w =>
    exact compinv_set_edge s context src dst w h (of_decide_eq_true hop)
  | putEdge context src dst w =>
    exact compinv_put_edge s context src dst w h (of_decide_eq_true hop)
  | deleteEdge context src dst =>
    exact compinv_delete_edge s context src dst h (of_decide_eq_true hop)
  | deleteNode context node =>
    exact compinv_delete_node s context node h (of_decide_eq_true hop)
  | createContext context => simp [Op.nonNullEdgeOp] at hop
  | markBeacons bits score context src => simp [Op.nonNullEdgeOp] at hop

theorem compinv_applyOps (ops : List Op) (s : AugMultiGraph) (h : CompInv s)
    (hops : ∀ op ∈ ops, op.nonNullEdgeOp = true) : CompInv (applyOps s ops) := by
  induction ops generalizing s with
  | nil => exact h
  | cons op t ih =>
    simp only [applyOps, List.foldl_cons]
    exact ih _ (compinv_op_apply s op h (hops op (List.mem_cons_self op t)))
      (fun o ho => hops o (List.mem_cons_of_mem op ho))

theorem compinv_new : CompInv AugMultiGraph.new := by
  refine ⟨rfl, ?_, fun a b ha => rfl⟩
  simp [keysA, AugMultiGraph.new]

--  ================================================================
--    Claim C1 (composition invariant)
--  ================================================================

/-- C1 counterexample: the claimed invariant
`weight_null(src,dst) = Σ over non-null contexts of weight_C(src,dst)`
already fails after the single operation write_put_edge("", "Ca", "Cb", 1):
the null context stores weight 1 for the pair while no non-null context
exists, so the sum is 0. -/
theorem c1_composition_counterexample :
    nullWeight (applyOps AugMultiGraph.new [Op.putEdge "" "Ca" "Cb" 1]) 0 1 ≠
      contextsSum (applyOps AugMultiGraph.new [Op.putEdge "" "Ca" "Cb" 1]) 0 1 := by
  decide

/-- C1 (amended): for every pair (src, dst) whose source is not a User
node, the null-context weight equals the sum of the non-null context
weights after any finite sequence of set_edge, write_put_edge,
write_delete_edge and write_delete_node operations in which every
operation targets a non-null context.  (The original claim fails both
for operations that write to the null context directly and for
User-sourced edges, which set_edge broadcasts verbatim to every
context.) -/
theorem c1_composition_amended (ops : List Op)
    (hops : ∀ op ∈ ops, op.nonNullEdgeOp = true) (src dst : Nat)
    (hk : (applyOps AugMultiGraph.new ops).kindOfId src ≠ NodeKind.User) :
    nullWeight (applyOps AugMultiGraph.new ops) src dst =
      contextsSum (applyOps AugMultiGraph.new ops) src dst :=
  (compinv_applyOps ops AugMultiGraph.new compinv_new hops).2.2 src dst hk

/-- C1 amended witness: a concrete run exercising the amended claim on
the sequence put("X", Ca, Cb, 1); delete_node("X", Ca). -/
theorem c1_composition_amended_witness :
    nullWeight (applyOps AugMultiGraph.new
        [Op.putEdge "X" "Ca" "Cb" 1, Op.deleteNode "X" "Ca"]) 0 1 =
      contextsSum (applyOps AugMultiGraph.new
        [Op.putEdge "X" "Ca" "Cb" 1, Op.deleteNode "X" "Ca"]) 0 1 :=
  c1_composition_amended
    [Op.putEdge "X" "Ca" "Cb" 1, Op.deleteNode "X" "Ca"]
    (by decide) 0 1 (by decide)

--  ================================================================
--    Claim C3 (write_create_context)
--  ================================================================

theorem aug_eq_of_fields (s t : AugMultiGraph)
    (h1 : s.node_count = t.node_count) (h2 : s.node_infos = t.node_infos)
    (h3 : s.node_ids = t.node_ids) (h4 : s.contexts = t.contexts) : s = t := by
  cases s
  cases t
  simp only [AugMultiGraph.mk.injEq]
  exact ⟨h1, h2, h3, h4⟩

theorem insertA_insertA {κ β : Type} [DecidableEq κ] (l : List (κ × β))
    (k : κ) (v w : β) : insertA (insertA l k v) k w = insertA l k w := by
  induction l with
  | nil => simp [insertA]
  | cons p t ih =>
    obtain ⟨a, b⟩ := p
    by_cases hak : a = k
    · subst hak
      simp [insertA]
    · simp [insertA, hak, ih]

theorem fresh_context_graph_create (s : AugMultiGraph) (context : String) :
    (s.create_context context).fresh_context_graph context =
      s.fresh_context_graph context := by
  unfold AugMultiGraph.fresh_context_graph
  by_cases hc : context = ""
  · subst hc
    rfl
  · simp only [if_neg hc]
    have hl : lookupA (s.create_context context).contexts "" = lookupA s.contexts "" := by
      show lookupA (insertA s.contexts context _) "" = _
      rw [lookupA_insertA, if_neg hc]
    rw [hl]
    rfl

/-- C3 counterexample: write_create_context on an existing context does
not leave its graph unchanged.  Create context X, then put the
Comment-sourced edge (Ca, Cb) with weight 2 into X; a further
write_create_context("X") resets that context-local weight to 0,
because create_context replaces the stored graph with a fresh one
seeded only with User-sourced edges of the null context. -/
theorem c3_create_context_counterexample :
    ctxWeight (applyOps AugMultiGraph.new
        [Op.createContext "X", Op.putEdge "X" "Ca" "Cb" 2]) "X" 0 1 = 2 ∧
    ctxWeight ((applyOps AugMultiGraph.new
        [Op.createContext "X", Op.putEdge "X" "Ca" "Cb" 2]).write_create_context "X")
      "X" 0 1 = 0 := by
  decide

/-- C3 (amended): write_create_context is idempotent only in the
strict consecutive sense: for every state, calling it twice in a row
with the same name leaves exactly the state of one call, because the
second call rebuilds the same seeded graph from the unchanged null
context and registry.  A call on a context that already holds
context-local non-User edges is not a no-op: it discards them (see the
counterexample). -/
theorem c3_create_context_amended (s : AugMultiGraph) (context : String) :
    (s.write_create_context context).write_create_context context =
      s.write_create_context context := by
  unfold AugMultiGraph.write_create_context
  apply aug_eq_of_fields
  · rfl
  · rfl
  · rfl
  · show (insertA (insertA s.contexts context (s.fresh_context_graph context)) context
      ((s.create_context context).fresh_context_graph context) =
      insertA s.contexts context (s.fresh_context_graph context))
    rw [fresh_context_graph_create, insertA_insertA]

--  ================================================================
--    Mark-set (Bloom) lemmas
--  ================================================================

theorem marksLe_refl (m : Marks) : marksLe m m := fun i => by simp

theorem marksLe_trans {a b c : Marks} (h1 : marksLe a b) (h2 : marksLe b c) :
    marksLe a c := by
  intro i
  have : a i ||| c i = a i ||| (b i ||| c i) := by rw [h2 i]
  rw [this, ← Nat.lor_assoc, h1 i, h2 i]

theorem marksLe_add_right (m bits : Marks) : marksLe m (bloom_filter_add m bits) := by
  intro i
  show m i ||| (m i ||| bits i) = m i ||| bits i
  rw [← Nat.lor_assoc]
  simp

theorem nat_land_of_lor (a b c : Nat) (h1 : a &&& c = c) (h2 : a ||| b = b) :
    b &&& c = c := by
  apply Nat.eq_of_testBit_eq
  intro j
  have t1 := congrArg (fun x => x.testBit j) h1
  have t2 := congrArg (fun x => x.testBit j) h2
  simp only [Nat.testBit_land, Nat.testBit_or] at t1 t2 ⊢
  cases hc : Nat.testBit c j with
  | false => simp [hc]
  | true =>
    rw [hc] at t1
    simp at t1
    rw [t1] at t2
    simp at t2
    simp [hc, t2]

theorem contains_of_marksLe (m m' bits : Marks)
    (h : bloom_filter_contains m bits = true) (hle : marksLe m m') :
    bloom_filter_contains m' bits = true := by
  unfold bloom_filter_contains at h ⊢
  rw [decide_eq_true_iff] at h ⊢
  intro i
  exact nat_land_of_lor (m i) (m' i) (bits i) (h i) (hle i)

theorem contains_add_self (m bits : Marks) :
    bloom_filter_contains (bloom_filter_add m bits) bits = true := by
  unfold bloom_filter_contains bloom_filter_add
  rw [decide_eq_true_iff]
  intro i
  apply Nat.eq_of_testBit_eq
  intro j
  simp only [Nat.testBit_land, Nat.testBit_or]
  cases hb : Nat.testBit (bits i) j <;> simp [hb]

--  ================================================================
--    Registry preservation
--  ================================================================

theorem regpreserve_refl (s : AugMultiGraph) : RegPreserve s s :=
  ⟨Nat.le_refl _, fun _ _ h => h, fun _ _ => ⟨rfl, rfl, marksLe_refl _⟩⟩

theorem regpreserve_trans {s t u : AugMultiGraph} (h1 : RegPreserve s t)
    (h2 : RegPreserve t u) : RegPreserve s u := by
  obtain ⟨a1, b1, c1⟩ := h1
  obtain ⟨a2, b2, c2⟩ := h2
  refine ⟨Nat.le_trans a1 a2, fun n id h => b2 n id (b1 n id h), fun id hid => ?_⟩
  obtain ⟨n1, k1, m1⟩ := c1 id hid
  obtain ⟨n2, k2, m2⟩ := c2 id (Nat.lt_of_lt_of_le hid a1)
  exact ⟨n2.trans n1, k2.trans k1, marksLe_trans m1 m2⟩

theorem regpreserve_of_fields_eq (s t : AugMultiGraph)
    (h1 : t.node_count = s.node_count) (h2 : t.node_infos = s.node_infos)
    (h3 : t.node_ids = s.node_ids) : RegPreserve s t := by
  refine ⟨Nat.le_of_eq h1.symm, fun n id h => ?_, fun id hid => ?_⟩
  · rw [h3]
    exact h
  · unfold AugMultiGraph.nameOfId AugMultiGraph.kindOfId AugMultiGraph.marksOfId
      AugMultiGraph.node_info_from_id
    rw [h2]
    exact ⟨rfl, rfl, marksLe_refl _⟩

theorem resizeL_getD {α : Type} (l : List α) (n : Nat) (d : α) (i : Nat)
    (hi : i < n) : ((resizeL l n d)[i]?).getD d = (l[i]?).getD d := by
  unfold resizeL
  by_cases h : l.length ≤ n
  · rw [if_pos h]
    by_cases hil : i < l.length
    · rw [List.getElem?_append_left hil]
    · have hl : l[i]? = none := List.getElem?_eq_none (by omega)
      have hrep : (l ++ List.replicate (n - l.length) d)[i]? = some d := by
        rw [List.getElem?_append_right (by omega)]
        simp [List.getElem?_replicate]
        omega
      rw [hl, hrep]
      rfl
  · rw [if_neg h]
    rw [List.getElem?_take_of_lt hi]

theorem reg_find_or_add (s : AugMultiGraph) (name : String) :
    RegPreserve s (s.find_or_add_node_by_name name).1 := by
  cases hl : lookupA s.node_ids name with
  | some id =>
    rw [find_or_add_eq_of_some s name id hl]
    exact regpreserve_of_fields_eq s _ rfl rfl rfl
  | none =>
    rw [find_or_add_eq_of_none s name hl]
    refine ⟨by simp, fun n nid h => ?_, fun id hid => ?_⟩
    · show lookupA (insertA s.node_ids name s.node_count) n = some nid
      rw [lookupA_insertA]
      by_cases hn : name = n
      · subst hn
        rw [hl] at h
        exact absurd h (by simp)
      · rw [if_neg hn]
        exact h
    · unfold AugMultiGraph.nameOfId AugMultiGraph.kindOfId AugMultiGraph.marksOfId
        AugMultiGraph.node_info_from_id
      simp only
      have hset : ((resizeL s.node_infos (s.node_count + 1) NodeInfo.dflt).set
          s.node_count ⟨kind_from_name name, name, marksZero⟩)[id]? =
          (resizeL s.node_infos (s.node_count + 1) NodeInfo.dflt)[id]? :=
        List.getElem?_set_ne (by omega)
      rw [hset]
      have h1 := resizeL_getD s.node_infos (s.node_count + 1) NodeInfo.dflt id
        (by omega)
      have hname := congrArg NodeInfo.name h1
      have hkind := congrArg NodeInfo.kind h1
      have hmarks := congrArg NodeInfo.marks h1
      exact ⟨hname, hkind, by rw [hmarks] ; exact marksLe_refl _⟩

theorem modify_graph_node_fields (s : AugMultiGraph) (context : String)
    (f : MRGraph → MRGraph) :
    (s.modify_graph context f).node_count = s.node_count ∧
    (s.modify_graph context f).node_infos = s.node_infos ∧
    (s.modify_graph context f).node_ids = s.node_ids := by
  unfold AugMultiGraph.modify_graph
  exact node_fields_graph_from s context

theorem set_edge_node_fields (s : AugMultiGraph) (context : String)
    (x y : Nat) (w : ℚ) :
    (s.set_edge context x y w).node_count = s.node_count ∧
    (s.set_edge context x y w).node_infos = s.node_infos ∧
    (s.set_edge context x y w).node_ids = s.node_ids := by
  unfold AugMultiGraph.set_edge
  by_cases hu : s.kindOfId x = NodeKind.User
  · rw [if_pos hu]
    by_cases hc : context = ""
    · simp only [if_pos hc]
      exact node_fields_graph_from s ""
    · simp only [if_neg hc]
      obtain ⟨a1, a2, a3⟩ := node_fields_graph_from s ""
      obtain ⟨b1, b2, b3⟩ := node_fields_graph_from (s.graph_from "").1 context
      exact ⟨b1.trans a1, b2.trans a2, b3.trans a3⟩
  · rw [if_neg hu]
    by_cases hc : context = ""
    · rw [if_pos hc]
      exact modify_graph_node_fields s "" _
    · rw [if_neg hc]
      obtain ⟨a1, a2, a3⟩ := node_fields_graph_from s ""
      obtain ⟨b1, b2, b3⟩ := node_fields_graph_from (s.graph_from "").1 context
      obtain ⟨c1, c2, c3⟩ := modify_graph_node_fields
        ((s.graph_from "").1.graph_from context).1 "" _
      obtain ⟨d1, d2, d3⟩ := modify_graph_node_fields
        (((s.graph_from "").1.graph_from context).1.modify_graph "" _) context _
      exact ⟨((d1.trans c1).trans b1).trans a1, ((d2.trans c2).trans b2).trans a2,
        ((d3.trans c3).trans b3).trans a3⟩

theorem fold_set_edge_node_fields (context : String) (id : Nat)
    (l : List (Nat × ℚ)) (s : AugMultiGraph) :
    (l.foldl (fun s p => s.set_edge context id p.1 0) s).node_count = s.node_count ∧
    (l.foldl (fun s p => s.set_edge context id p.1 0) s).node_infos = s.node_infos ∧
    (l.foldl (fun s p => s.set_edge context id p.1 0) s).node_ids = s.node_ids := by
  induction l generalizing s with
  | nil => exact ⟨rfl, rfl, rfl⟩
  | cons p t ih =>
    simp only [List.foldl_cons]
    obtain ⟨a1, a2, a3⟩ := ih (s.set_edge context id p.1 0)
    obtain ⟨b1, b2, b3⟩ := set_edge_node_fields s context id p.1 0
    exact ⟨a1.trans b1, a2.trans b2, a3.trans b3⟩

theorem reg_set_edge (s : AugMultiGraph) (context : String) (x y : Nat) (w : ℚ) :
    RegPreserve s (s.set_edge context x y w) := by
  obtain ⟨h1, h2, h3⟩ := set_edge_node_fields s context x y w
  exact regpreserve_of_fields_eq s _ h1 h2 h3

theorem reg_put_edge (s : AugMultiGraph) (context src dst : String) (w : ℚ) :
    RegPreserve s (s.write_put_edge context src dst w) := by
  unfold AugMultiGraph.write_put_edge
  exact regpreserve_trans (reg_find_or_add s src)
    (regpreserve_trans (reg_find_or_add _ dst) (reg_set_edge _ context _ _ w))

theorem reg_delete_edge (s : AugMultiGraph) (context src dst : String) :
    RegPreserve s (s.write_delete_edge context src dst) := by
  unfold AugMultiGraph.write_delete_edge
  by_cases hc : s.node_exists src = false ∨ s.node_exists dst = false
  · rw [if_pos hc]
    exact regpreserve_refl s
  · rw [if_neg hc]
    exact regpreserve_trans (reg_find_or_add s src)
      (regpreserve_trans (reg_find_or_add _ dst) (reg_set_edge _ context _ _ 0))

theorem reg_delete_node (s : AugMultiGraph) (context node : String) :
    RegPreserve s (s.write_delete_node context node) := by
  unfold AugMultiGraph.write_delete_node
  by_cases hc : s.node_exists node = false
  · rw [if_pos hc]
    exact regpreserve_refl s
  · rw [if_neg hc]
    refine regpreserve_trans (reg_find_or_add s node) ?_
    refine regpreserve_trans (regpreserve_of_fields_eq _
      ((s.find_or_add_node_by_name node).1.graph_from context).1
      (node_fields_graph_from _ context).1 (node_fields_graph_from _ context).2.1
      (node_fields_graph_from _ context).2.2) ?_
    obtain ⟨h1, h2, h3⟩ := fold_set_edge_node_fields context
      (s.find_or_add_node_by_name node).2
      ((s.find_or_add_node_by_name node).1.all_neighbors context
        (s.find_or_add_node_by_name node).2).2
      ((s.find_or_add_node_by_name node).1.graph_from context).1
    exact regpreserve_of_fields_eq _ _ h1 h2 h3

theorem reg_create_context (s : AugMultiGraph) (context : String) :
    RegPreserve s (s.write_create_context context) :=
  regpreserve_of_fields_eq s _ rfl rfl rfl

--  ================================================================
--    markStep / write_mark_beacons lemmas
--  ================================================================

theorem reg_set_marks (s : AugMultiGraph) (b : Nat) (m : Marks) :
    RegPreserve s
      { s with
          node_infos := s.node_infos.set b
            { s.node_info_from_id b with
                marks := bloom_filter_add (s.marksOfId b) m } } := by
  refine ⟨Nat.le_refl _, fun n id h => h, fun id hid => ?_⟩
  by_cases hib : id = b
  · subst hib
    by_cases hlen : id < s.node_infos.length
    · unfold AugMultiGraph.nameOfId AugMultiGraph.kindOfId AugMultiGraph.marksOfId
        AugMultiGraph.node_info_from_id
      simp only [List.getElem?_set_self, hlen, if_pos]
      have hsome : s.node_infos[id]?.isSome = true := by
        simp [List.getElem?_eq_getElem hlen]
      obtain ⟨info, hinfo⟩ := Option.isSome_iff_exists.mp hsome
      rw [hinfo]
      exact ⟨rfl, rfl, marksLe_add_right _ _⟩
    · rw [List.set_eq_of_length_le (by omega)]
      exact ⟨rfl, rfl, marksLe_refl _⟩
  · unfold AugMultiGraph.nameOfId AugMultiGraph.kindOfId AugMultiGraph.marksOfId
      AugMultiGraph.node_info_from_id
    rw [List.getElem?_set_ne (fun h => hib h.symm)]
    exact ⟨rfl, rfl, marksLe_refl _⟩

theorem reg_mark_step (score : String → Nat → Nat → ℚ) (context : String)
    (src_id : Nat) (mark : Marks) (s : AugMultiGraph) (b : Nat) :
    RegPreserve s (markStep score context src_id mark s b) := by
  unfold markStep
  by_cases h1 : s.kindOfId b ≠ NodeKind.Beacon
  · rw [if_pos h1]
    exact regpreserve_refl s
  · rw [if_neg h1]
    obtain ⟨f1, f2, f3⟩ := node_fields_graph_from s context
    have hreg1 : RegPreserve s (s.graph_from context).1 :=
      regpreserve_of_fields_eq s _ f1 f2 f3
    by_cases h2 : score context src_id b < EPSILON
    · rw [if_pos h2]
      exact hreg1
    · rw [if_neg h2]
      exact regpreserve_trans hreg1 (reg_set_marks _ b mark)

theorem mark_step_count_ids (score : String → Nat → Nat → ℚ) (context : String)
    (src_id : Nat) (mark : Marks) (s : AugMultiGraph) (b : Nat) :
    (markStep score context src_id mark s b).node_count = s.node_count ∧
    (markStep score context src_id mark s b).node_ids = s.node_ids ∧
    (markStep score context src_id mark s b).node_infos.length =
      s.node_infos.length := by
  unfold markStep
  by_cases h1 : s.kindOfId b ≠ NodeKind.Beacon
  · rw [if_pos h1]
    exact ⟨rfl, rfl, rfl⟩
  · rw [if_neg h1]
    obtain ⟨f1, f2, f3⟩ := node_fields_graph_from s context
    by_cases h2 : score context src_id b < EPSILON
    · rw [if_pos h2]
      exact ⟨f1, f3, by rw [f2]⟩
    · rw [if_neg h2]
      refine ⟨f1, f3, ?_⟩
      show ((s.graph_from context).1.node_infos.set b _).length = _
      rw [List.length_set, f2]

theorem mark_fold_count_ids (score : String → Nat → Nat → ℚ) (context : String)
    (src_id : Nat) (mark : Marks) (L : List Nat) (s : AugMultiGraph) :
    (L.foldl (markStep score context src_id mark) s).node_count = s.node_count ∧
    (L.foldl (markStep score context src_id mark) s).node_ids = s.node_ids ∧
    (L.foldl (markStep score context src_id mark) s).node_infos.length =
      s.node_infos.length := by
  induction L generalizing s with
  | nil => exact ⟨rfl, rfl, rfl⟩
  | cons x t ih =>
    simp only [List.foldl_cons]
    obtain ⟨a1, a2, a3⟩ := ih (markStep score context src_id mark s x)
    obtain ⟨b1, b2, b3⟩ := mark_step_count_ids score context src_id mark s x
    exact ⟨a1.trans b1, a2.trans b2, a3.trans b3⟩

theorem reg_mark_fold (score : String → Nat → Nat → ℚ) (context : String)
    (src_id : Nat) (mark : Marks) (L : List Nat) (s : AugMultiGraph) :
    RegPreserve s (L.foldl (markStep score context src_id mark) s) := by
  induction L generalizing s with
  | nil => exact regpreserve_refl s
  | cons x t ih =>
    simp only [List.foldl_cons]
    exact regpreserve_trans (reg_mark_step score context src_id mark s x)
      (ih (markStep score context src_id mark s x))

theorem reg_mark_beacons (s : AugMultiGraph) (bits : String → String → Marks)
    (score : String → Nat → Nat → ℚ) (context src : String) :
    RegPreserve s (s.write_mark_beacons bits score context src) := by
  unfold AugMultiGraph.write_mark_beacons
  exact regpreserve_trans (reg_find_or_add s src) (reg_mark_fold _ _ _ _ _ _)

theorem reg_op_apply (s : AugMultiGraph) (op : Op) : RegPreserve s (op.apply s) := by
  cases op with
  | setEdge context src dst w => exact reg_set_edge s context src dst w
  | putEdge context src dst w => exact reg_put_edge s context src dst w
  | deleteEdge context src dst => exact reg_delete_edge s context src dst
  | deleteNode context node => exact reg_delete_node s context node
  | createContext context => exact reg_create_context s context
  | markBeacons bits score context src => exact reg_mark_beacons s bits score context src

theorem reg_applyOps (s : AugMultiGraph) (ops : List Op) :
    RegPreserve s (applyOps s ops) := by
  induction ops generalizing s with
  | nil => exact regpreserve_refl s
  | cons op t ih =>
    simp only [applyOps, List.foldl_cons]
    exact regpreserve_trans (reg_op_apply s op) (ih (op.apply s))

--  ================================================================
--    Well-formedness preservation
--  ================================================================

theorem lookupA_append_single {κ β : Type} [DecidableEq κ] (l : List (κ × β))
    (k k' : κ) (v : β) :
    lookupA (l ++ [(k, v)]) k' =
      match lookupA l k' with
      | some w => some w
      | none => if k = k' then some v else none := by
  induction l with
  | nil => simp [lookupA]
  | cons p t ih =>
    obtain ⟨a, b⟩ := p
    by_cases hak : a = k' <;> simp [lookupA, hak, ih]

theorem wf_of_fields_eq (s t : AugMultiGraph) (h1 : t.node_count = s.node_count)
    (h2 : t.node_infos = s.node_infos) (h3 : t.node_ids = s.node_ids)
    (h : WF s) : WF t := by
  obtain ⟨w1, w2, w3⟩ := h
  have hn : t.nameOfId = s.nameOfId := by
    funext id
    unfold AugMultiGraph.nameOfId AugMultiGraph.node_info_from_id
    rw [h2]
  have hk : t.kindOfId = s.kindOfId := by
    funext id
    unfold AugMultiGraph.kindOfId AugMultiGraph.node_info_from_id
    rw [h2]
  refine ⟨?_, ?_, ?_⟩
  · rw [h1, h2]
    exact w1
  · intro p hp
    rw [h3] at hp
    obtain ⟨q1, q2, q3⟩ := w2 p hp
    rw [h1, hn, hk]
    exact ⟨q1, q2, q3⟩
  · intro id hid
    rw [h1] at hid
    rw [h3, hn]
    exact w3 id hid

theorem wf_append (s t : AugMultiGraph) (name : String)
    (h1 : t.node_count = s.node_count + 1)
    (h2 : t.node_infos =
      s.node_infos ++ [⟨kind_from_name name, name, marksZero⟩])
    (h3 : t.node_ids = s.node_ids ++ [(name, s.node_count)])
    (hl : lookupA s.node_ids name = none) (h : WF s) : WF t := by
  obtain ⟨w1, w2, w3⟩ := h
  have hold : ∀ id, id < s.node_count →
      t.nameOfId id = s.nameOfId id ∧ t.kindOfId id = s.kindOfId id := by
    intro id hid
    unfold AugMultiGraph.nameOfId AugMultiGraph.kindOfId
      AugMultiGraph.node_info_from_id
    rw [h2, List.getElem?_append_left (by omega)]
    exact ⟨rfl, rfl⟩
  have hnew : t.nameOfId s.node_count = name ∧
      t.kindOfId s.node_count = kind_from_name name := by
    unfold AugMultiGraph.nameOfId AugMultiGraph.kindOfId
      AugMultiGraph.node_info_from_id
    rw [h2, List.getElem?_append_right (by omega), ← w1]
    simp
  refine ⟨?_, ?_, ?_⟩
  · rw [h1, h2]
    simp [w1]
  · intro p hp
    rw [h3] at hp
    rcases List.mem_append.mp hp with hp | hp
    · obtain ⟨q1, q2, q3⟩ := w2 p hp
      obtain ⟨e1, e2⟩ := hold p.2 q1
      rw [h1, e1, e2]
      exact ⟨by omega, q2, q3⟩
    · rw [List.mem_singleton.mp hp]
      rw [h1]
      exact ⟨by omega, hnew.1, hnew.2⟩
  · intro id hid
    rw [h1] at hid
    by_cases hic : id < s.node_count
    · rw [h3, (hold id hic).1, lookupA_append_single, w3 id hic]
    · have hic2 : id = s.node_count := by omega
      subst hic2
      rw [h3, hnew.1, lookupA_append_single, hl, if_pos rfl]

theorem wf_find_or_add (s : AugMultiGraph) (name : String) (h : WF s) :
    WF (s.find_or_add_node_by_name name).1 := by
  cases hl : lookupA s.node_ids name with
  | some id =>
    rw [find_or_add_eq_of_some s name id hl]
    exact wf_of_fields_eq _ _ rfl rfl rfl h
  | none =>
    rw [find_or_add_eq_of_none s name hl]
    refine wf_append s _ name rfl ?_ ?_ hl h
    · show (resizeL s.node_infos (s.node_count + 1) NodeInfo.dflt).set s.node_count
        (⟨kind_from_name name, name, marksZero⟩ : NodeInfo) = _
      rw [← h.1, resizeL_append_one, set_append_length]
    · exact insertA_of_lookup_none _ hl

theorem names_mark_step (score : String → Nat → Nat → ℚ) (context : String)
    (src_id : Nat) (mark : Marks) (s : AugMultiGraph) (b : Nat) :
    ∀ id, (markStep score context src_id mark s b).nameOfId id = s.nameOfId id ∧
      (markStep score context src_id mark s b).kindOfId id = s.kindOfId id := by
  intro id
  unfold markStep
  by_cases h1 : s.kindOfId b ≠ NodeKind.Beacon
  · rw [if_pos h1]
    exact ⟨rfl, rfl⟩
  · rw [if_neg h1]
    obtain ⟨f1, f2, f3⟩ := node_fields_graph_from s context
    have hn : (s.graph_from context).1.nameOfId = s.nameOfId := by
      funext i
      unfold AugMultiGraph.nameOfId AugMultiGraph.node_info_from_id
      rw [f2]
    have hk : (s.graph_from context).1.kindOfId = s.kindOfId := by
      funext i
      unfold AugMultiGraph.kindOfId AugMultiGraph.node_info_from_id
      rw [f2]
    by_cases h2 : score context src_id b < EPSILON
    · rw [if_pos h2, hn, hk]
      exact ⟨rfl, rfl⟩
    · rw [if_neg h2]
      rw [← hn, ← hk]
      set s2 := (s.graph_from context).1 with hs2
      by_cases hib : id = b
      · subst hib
        by_cases hlen : id < s2.node_infos.length
        · unfold AugMultiGraph.nameOfId AugMultiGraph.kindOfId
            AugMultiGraph.node_info_from_id
          simp only [List.getElem?_set_self, hlen, if_pos]
          have hsome : s2.node_infos[id]?.isSome = true := by
            simp [List.getElem?_eq_getElem hlen]
          obtain ⟨info, hinfo⟩ := Option.isSome_iff_exists.mp hsome
          rw [hinfo]
          exact ⟨rfl, rfl⟩
        · rw [List.set_eq_of_length_le (by omega)]
          exact ⟨rfl, rfl⟩
      · unfold AugMultiGraph.nameOfId AugMultiGraph.kindOfId
          AugMultiGraph.node_info_from_id
        rw [List.getElem?_set_ne (fun hh => hib hh.symm)]
        exact ⟨rfl, rfl⟩

theorem wf_mark_step (score : String → Nat → Nat → ℚ) (context : String)
    (src_id : Nat) (mark : Marks) (s : AugMultiGraph) (b : Nat) (h : WF s) :
    WF (markStep score context src_id mark s b) := by
  obtain ⟨w1, w2, w3⟩ := h
  obtain ⟨c1, c2, c3⟩ := mark_step_count_ids score context src_id mark s b
  refine ⟨by rw [c3, c1, w1], ?_, ?_⟩
  · intro p hp
    rw [c2] at hp
    obtain ⟨q1, q2, q3⟩ := w2 p hp
    obtain ⟨e1, e2⟩ := names_mark_step score context src_id mark s b p.2
    rw [c1, e1, e2]
    exact ⟨q1, q2, q3⟩
  · intro id hid
    rw [c1] at hid
    rw [c2, (names_mark_step score context src_id mark s b id).1]
    exact w3 id hid

theorem wf_mark_fold (score : String → Nat → Nat → ℚ) (context : String)
    (src_id : Nat) (mark : Marks) (L : List Nat) (s : AugMultiGraph) (h : WF s) :
    WF (L.foldl (markStep score context src_id mark) s) := by
  induction L generalizing s with
  | nil => exact h
  | cons x t ih =>
    simp only [List.foldl_cons]
    exact ih _ (wf_mark_step score context src_id mark s x h)

theorem wf_op_apply (s : AugMultiGraph) (op : Op) (h : WF s) : WF (op.apply s) := by
  cases op with
  | setEdge context src dst w =>
    obtain ⟨f1, f2, f3⟩ := set_edge_node_fields s context src dst w
    exact wf_of_fields_eq s _ f1 f2 f3 h
  | putEdge context src dst w =>
    show WF (AugMultiGraph.write_put_edge s context src dst w)
    unfold AugMultiGraph.write_put_edge
    have h2 := wf_find_or_add _ dst (wf_find_or_add s src h)
    obtain ⟨f1, f2, f3⟩ := set_edge_node_fields
      ((s.find_or_add_node_by_name src).1.find_or_add_node_by_name dst).1 context
      (s.find_or_add_node_by_name src).2
      ((s.find_or_add_node_by_name src).1.find_or_add_node_by_name dst).2 w
    exact wf_of_fields_eq _ _ f1 f2 f3 h2
  | deleteEdge context src dst =>
    show WF (AugMultiGraph.write_delete_edge s context src dst)
    unfold AugMultiGraph.write_delete_edge
    by_cases hc : s.node_exists src = false ∨ s.node_exists dst = false
    · rw [if_pos hc]
      exact h
    · rw [if_neg hc]
      have h2 := wf_find_or_add _ dst (wf_find_or_add s src h)
      obtain ⟨f1, f2, f3⟩ := set_edge_node_fields
        ((s.find_or_add_node_by_name src).1.find_or_add_node_by_name dst).1 context
        (s.find_or_add_node_by_name src).2
        ((s.find_or_add_node_by_name src).1.find_or_add_node_by_name dst).2 0
      exact wf_of_fields_eq _ _ f1 f2 f3 h2
  | deleteNode context node =>
    show WF (AugMultiGraph.write_delete_node s context node)
    unfold AugMultiGraph.write_delete_node
    by_cases hc : s.node_exists node = false
    · rw [if_pos hc]
      exact h
    · rw [if_neg hc]
      have h2 := wf_find_or_add s node h
      have h3 : WF ((s.find_or_add_node_by_name node).1.graph_from context).1 := by
        obtain ⟨f1, f2, f3⟩ := node_fields_graph_from
          (s.find_or_add_node_by_name node).1 context
        exact wf_of_fields_eq _ _ f1 f2 f3 h2
      obtain ⟨f1, f2, f3⟩ := fold_set_edge_node_fields context
        (s.find_or_add_node_by_name node).2
        ((s.find_or_add_node_by_name node).1.all_neighbors context
          (s.find_or_add_node_by_name node).2).2
        ((s.find_or_add_node_by_name node).1.graph_from context).1
      exact wf_of_fields_eq _ _ f1 f2 f3 h3
  | createContext context => exact wf_of_fields_eq s _ rfl rfl rfl h
  | markBeacons bits score context src =>
    show WF (AugMultiGraph.write_mark_beacons s bits score context src)
    unfold AugMultiGraph.write_mark_beacons
    exact wf_mark_fold score context _ _ _ _ (wf_find_or_add s src h)

theorem wf_applyOps (s : AugMultiGraph) (ops : List Op) (h : WF s) :
    WF (applyOps s ops) := by
  induction ops generalizing s with
  | nil => exact h
  | cons op t ih =>
    simp only [applyOps, List.foldl_cons]
    exact ih _ (wf_op_apply s op h)

--  ================================================================
--    Sort membership
--  ================================================================

theorem mem_insertDescBy {α : Type} (key : α → ℚ) (x a : α) (l : List α) :
    a ∈ insertDescBy key x l ↔ a = x ∨ a ∈ l := by
  induction l with
  | nil => simp [insertDescBy]
  | cons y t ih =>
    unfold insertDescBy
    by_cases h : key y ≤ key x
    · simp [h]
    · simp only [if_neg h, List.mem_cons, ih]
      tauto

theorem mem_sortDescBy {α : Type} (key : α → ℚ) (l : List α) (a : α) :
    a ∈ sortDescBy key l ↔ a ∈ l := by
  induction l with
  | nil => simp [sortDescBy]
  | cons x t ih =>
    show a ∈ insertDescBy key x (sortDescBy key t) ↔ _
    rw [mem_insertDescBy, ih]
    simp

--  ================================================================
--    Marking reaches the Bloom filter
--  ================================================================

theorem mark_step_count_len (score : String → Nat → Nat → ℚ) (context : String)
    (src_id : Nat) (mark : Marks) (s : AugMultiGraph) (x : Nat) :
    (markStep score context src_id mark s x).node_count = s.node_count ∧
    (markStep score context src_id mark s x).node_infos.length =
      s.node_infos.length :=
  ⟨(mark_step_count_ids score context src_id mark s x).1,
    (mark_step_count_ids score context src_id mark s x).2.2⟩

theorem mark_step_contains_self (score : String → Nat → Nat → ℚ)
    (context : String) (src_id : Nat) (mark : Marks) (s : AugMultiGraph)
    (b : Nat) (hkind : s.kindOfId b = NodeKind.Beacon)
    (hsc : ¬ score context src_id b < EPSILON)
    (hlen : b < s.node_infos.length) :
    bloom_filter_contains
      ((markStep score context src_id mark s b).marksOfId b) mark = true := by
  unfold markStep
  rw [if_neg (by simp [hkind]), if_neg hsc]
  obtain ⟨f1, f2, f3⟩ := node_fields_graph_from s context
  set s2 := (s.graph_from context).1 with hs2
  have hlen2 : b < s2.node_infos.length := by rw [f2] ; exact hlen
  show bloom_filter_contains
    (AugMultiGraph.marksOfId { s2 with node_infos := s2.node_infos.set b _ } b) mark
      = true
  unfold AugMultiGraph.marksOfId AugMultiGraph.node_info_from_id
  simp only [List.getElem?_set_self, hlen2, if_pos]
  exact contains_add_self _ mark

theorem mark_step_marksOfId_ne (score : String → Nat → Nat → ℚ)
    (context : String) (src_id : Nat) (mark : Marks) (s : AugMultiGraph)
    (x b : Nat) (hxb : x ≠ b) :
    (markStep score context src_id mark s x).marksOfId b = s.marksOfId b := by
  unfold markStep
  by_cases h1 : s.kindOfId x ≠ NodeKind.Beacon
  · rw [if_pos h1]
  · rw [if_neg h1]
    obtain ⟨f1, f2, f3⟩ := node_fields_graph_from s context
    have hm : (s.graph_from context).1.marksOfId b = s.marksOfId b := by
      unfold AugMultiGraph.marksOfId AugMultiGraph.node_info_from_id
      rw [f2]
    by_cases h2 : score context src_id x < EPSILON
    · rw [if_pos h2, hm]
    · rw [if_neg h2]
      rw [← hm]
      unfold AugMultiGraph.marksOfId AugMultiGraph.node_info_from_id
      rw [List.getElem?_set_ne hxb]

theorem mark_fold_contains (score : String → Nat → Nat → ℚ) (context : String)
    (src_id : Nat) (mark : Marks) (L : List Nat) (s : AugMultiGraph) (b : Nat)
    (hb : b ∈ L) (hkind : s.kindOfId b = NodeKind.Beacon)
    (hsc : ¬ score context src_id b < EPSILON)
    (hlen : b < s.node_infos.length) (hbc : b < s.node_count) :
    bloom_filter_contains
      ((L.foldl (markStep score context src_id mark) s).marksOfId b) mark
      = true := by
  induction L generalizing s with
  | nil => simp at hb
  | cons x t ih =>
    simp only [List.foldl_cons]
    by_cases hxb : x = b
    · subst hxb
      have hc1 := mark_step_contains_self score context src_id mark s x hkind hsc hlen
      have hreg := reg_mark_fold score context src_id mark t
        (markStep score context src_id mark s x)
      have hbc2 : x < (markStep score context src_id mark s x).node_count := by
        rw [(mark_step_count_ids score context src_id mark s x).1]
        exact hbc
      exact contains_of_marksLe _ _ mark hc1 (hreg.2.2 x hbc2).2.2
    · have hb2 : b ∈ t := by
        rcases List.mem_cons.mp hb with hh | hh
        · exact absurd hh.symm hxb
        · exact hh
      refine ih (markStep score context src_id mark s x) hb2 ?_ ?_ ?_
      · rw [(names_mark_step score context src_id mark s x b).2]
        exact hkind
      · rw [(mark_step_count_len score context src_id mark s x).2]
        exact hlen
      · rw [(mark_step_count_len score context src_id mark s x).1]
        exact hbc

--  ================================================================
--    read_unmarked_beacons fold analysis
--  ================================================================

theorem unmarked_step_state (score : String → Nat → Nat → ℚ) (context : String)
    (src_id : Nat) (mark : Marks) (acc : AugMultiGraph × List (String × ℚ))
    (x : Nat) :
    (unmarkedStep score context src_id mark acc x).1.node_infos =
      acc.1.node_infos := by
  unfold unmarkedStep
  by_cases h1 : acc.1.kindOfId x ≠ NodeKind.Beacon
  · rw [if_pos h1]
  · rw [if_neg h1]
    obtain ⟨f1, f2, f3⟩ := node_fields_graph_from acc.1 context
    by_cases h2 : score context src_id x < EPSILON
    · rw [if_pos h2]
      exact f2
    · rw [if_neg h2]
      by_cases h3 : bloom_filter_contains ((acc.1.graph_from context).1.marksOfId x)
          mark = true
      · rw [if_pos h3]
        exact f2
      · rw [if_neg h3]
        exact f2

theorem unmarked_fold_mem (score : String → Nat → Nat → ℚ) (context : String)
    (src_id : Nat) (mark : Marks) (L : List Nat) (s0 : AugMultiGraph)
    (v0 : List (String × ℚ)) :
    ∀ p ∈ (L.foldl (unmarkedStep score context src_id mark) (s0, v0)).2,
      p ∈ v0 ∨ ∃ i ∈ L, p.1 = s0.nameOfId i ∧
        bloom_filter_contains (s0.marksOfId i) mark = false := by
  induction L generalizing s0 v0 with
  | nil => exact fun p hp => Or.inl hp
  | cons x t ih =>
    intro p hp
    simp only [List.foldl_cons] at hp
    have hstep : (unmarkedStep score context src_id mark (s0, v0) x).1.node_infos =
        s0.node_infos := unmarked_step_state score context src_id mark (s0, v0) x
    have hnames : (unmarkedStep score context src_id mark (s0, v0) x).1.nameOfId =
        s0.nameOfId := by
      funext i
      unfold AugMultiGraph.nameOfId AugMultiGraph.node_info_from_id
      rw [hstep]
    have hmarks : (unmarkedStep score context src_id mark (s0, v0) x).1.marksOfId =
        s0.marksOfId := by
      funext i
      unfold AugMultiGraph.marksOfId AugMultiGraph.node_info_from_id
      rw [hstep]
    have hfold := ih (unmarkedStep score context src_id mark (s0, v0) x).1
      (unmarkedStep score context src_id mark (s0, v0) x).2
    rw [Prod.mk.eta] at hfold
    rcases hfold p hp with hv | ⟨i, hi, hn, hc⟩
    · -- p was already in the accumulator after the first step
      unfold unmarkedStep at hv
      by_cases h1 : s0.kindOfId x ≠ NodeKind.Beacon
      · rw [if_pos h1] at hv
        exact Or.inl hv
      · rw [if_neg h1] at hv
        by_cases h2 : score context src_id x < EPSILON
        · rw [if_pos h2] at hv
          exact Or.inl hv
        · rw [if_neg h2] at hv
          by_cases h3 : bloom_filter_contains
              (((s0, v0).1.graph_from context).1.marksOfId x) mark = true
          · rw [if_pos h3] at hv
            exact Or.inl hv
          · rw [if_neg h3] at hv
            rcases List.mem_append.mp hv with hv | hv
            · exact Or.inl hv
            · refine Or.inr ⟨x, List.mem_cons_self x t, ?_, ?_⟩
              · rw [List.mem_singleton.mp hv]
                show ((s0.graph_from context).1.nameOfId x) = s0.nameOfId x
                obtain ⟨f1, f2, f3⟩ := node_fields_graph_from s0 context
                unfold AugMultiGraph.nameOfId AugMultiGraph.node_info_from_id
                rw [f2]
              · have hm : (s0.graph_from context).1.marksOfId x = s0.marksOfId x := by
                  obtain ⟨f1, f2, f3⟩ := node_fields_graph_from s0 context
                  unfold AugMultiGraph.marksOfId AugMultiGraph.node_info_from_id
                  rw [f2]
                rw [hm] at h3
                exact Bool.not_eq_true _ ▸ (by simpa using h3)
    · rw [hnames] at hn
      rw [hmarks] at hc
      exact Or.inr ⟨i, List.mem_cons_of_mem x hi, hn, hc⟩

--  ================================================================
--    Claim C7 (Bloom monotonicity)
--  ================================================================

/-- C7: once write_mark_beacons(C, S) has marked a beacon (kind Beacon,
score at least EPSILON at marking time), no later
read_unmarked_beacons(C, S) lists that beacon, whatever engine
operations (writes, deletes, context creations, further markings — any
sequence not containing write_reset) run in between.  The estimator
responses at marking time (`score`) and at read time (`score2`) are
arbitrary and independent. -/
theorem c7_bloom_monotonicity (bits : String → String → Marks)
    (score score2 : String → Nat → Nat → ℚ) (s : AugMultiGraph)
    (context src : String) (ops : List Op) (b : Nat) (hwf : WF s)
    (hb : b < (s.find_or_add_node_by_name src).1.node_count)
    (hkind : (s.find_or_add_node_by_name src).1.kindOfId b = NodeKind.Beacon)
    (hsc : EPSILON ≤ score context (s.find_or_add_node_by_name src).2 b) :
    (applyOps (s.write_mark_beacons bits score context src) ops).nameOfId b ∉
      (((applyOps (s.write_mark_beacons bits score context src) ops).read_unmarked_beacons
        bits score2 context src).2.map Prod.fst) := by
  have hwf1 : WF (s.find_or_add_node_by_name src).1 := wf_find_or_add s src hwf
  have hlen1 : b < (s.find_or_add_node_by_name src).1.node_infos.length := by
    rw [hwf1.1]
    exact hb
  have hA : s.write_mark_beacons bits score context src =
      (List.range (s.find_or_add_node_by_name src).1.node_count).foldl
        (markStep score context (s.find_or_add_node_by_name src).2
          (bits context src)) (s.find_or_add_node_by_name src).1 := rfl
  set A := s.write_mark_beacons bits score context src with hAd
  have hcontA : bloom_filter_contains (A.marksOfId b) (bits context src) = true := by
    rw [hA]
    exact mark_fold_contains score context _ _ _ _ b (List.mem_range.mpr hb) hkind
      (not_lt.mpr hsc) hlen1 hb
  have hcountA : A.node_count = (s.find_or_add_node_by_name src).1.node_count := by
    rw [hA]
    exact (mark_fold_count_ids _ _ _ _ _ _).1
  have hwfA : WF A := by
    rw [hA]
    exact wf_mark_fold _ _ _ _ _ _ hwf1
  set t := applyOps A ops with htd
  have hwft : WF t := wf_applyOps A ops hwfA
  have hreg : RegPreserve A t := reg_applyOps A ops
  have hbA : b < A.node_count := by
    rw [hcountA]
    exact hb
  have hbt : b < t.node_count := Nat.lt_of_lt_of_le hbA hreg.1
  have hnamebt : t.nameOfId b = A.nameOfId b := (hreg.2.2 b hbA).1
  have hcontt : bloom_filter_contains (t.marksOfId b) (bits context src) = true :=
    contains_of_marksLe _ _ _ hcontA (hreg.2.2 b hbA).2.2
  show t.nameOfId b ∉ _
  unfold AugMultiGraph.read_unmarked_beacons
  by_cases hc1 : (lookupA t.contexts context).isNone = true
  · rw [if_pos hc1]
    simp
  · rw [if_neg hc1]
    by_cases hc2 : t.node_exists src = false
    · rw [if_pos hc2]
      simp
    · rw [if_neg hc2]
      have hexists : (lookupA t.node_ids src).isSome = true := by
        cases hh : (lookupA t.node_ids src).isSome with
        | false =>
          have : t.node_exists src = false := hh
          exact absurd this hc2
        | true => rfl
      obtain ⟨tid, htid⟩ := Option.isSome_iff_exists.mp hexists
      have hfields := find_or_add_fst_of_some t src tid htid
      intro hmem
      obtain ⟨p, hp, hpname⟩ := List.mem_map.mp hmem
      rw [mem_sortDescBy] at hp
      rcases unmarked_fold_mem score2 context _ _ _ _ _ p hp with h0 | ⟨i, hi, hn, hcf⟩
      · exact List.not_mem_nil p h0
      · have hname_t1 : (t.find_or_add_node_by_name src).1.nameOfId = t.nameOfId := by
          funext j
          unfold AugMultiGraph.nameOfId AugMultiGraph.node_info_from_id
          rw [hfields.2.1]
        have hmarks_t1 : (t.find_or_add_node_by_name src).1.marksOfId = t.marksOfId := by
          funext j
          unfold AugMultiGraph.marksOfId AugMultiGraph.node_info_from_id
          rw [hfields.2.1]
        have hit : i < t.node_count := by
          have hh := List.mem_range.mp hi
          rw [hfields.1] at hh
          exact hh
        rw [hname_t1] at hn
        have hnames_eq : t.nameOfId i = t.nameOfId b := hn.symm.trans hpname
        have h1 := hwft.2.2 i hit
        rw [hnames_eq] at h1
        have h2 := hwft.2.2 b hbt
        have hib : i = b := by
          have := h1.symm.trans h2
          injection this
        rw [hmarks_t1, hib, hcontt] at hcf
        simp at hcf

--  ================================================================
--    Claim C8 (node stability)
--  ================================================================

/-- C8: the id assigned at the first find_or_add_node_by_name(n) is
returned by every later call with n; the binding and the node's stored
name survive any sequence of engine operations (including
write_delete_node, which only zeroes outgoing edges), and the id space
only grows. -/
theorem c8_node_stability (s : AugMultiGraph) (n : String) (ops : List Op)
    (hwf : WF s) :
    lookupA (applyOps (s.find_or_add_node_by_name n).1 ops).node_ids n =
      some (s.find_or_add_node_by_name n).2 ∧
    ((applyOps (s.find_or_add_node_by_name n).1 ops).find_or_add_node_by_name n).2 =
      (s.find_or_add_node_by_name n).2 ∧
    (applyOps (s.find_or_add_node_by_name n).1 ops).nameOfId
      (s.find_or_add_node_by_name n).2 = n ∧
    (s.find_or_add_node_by_name n).1.node_count ≤
      (applyOps (s.find_or_add_node_by_name n).1 ops).node_count := by
  have hbase : lookupA (s.find_or_add_node_by_name n).1.node_ids n =
        some (s.find_or_add_node_by_name n).2 ∧
      (s.find_or_add_node_by_name n).1.nameOfId (s.find_or_add_node_by_name n).2 = n ∧
      (s.find_or_add_node_by_name n).2 < (s.find_or_add_node_by_name n).1.node_count := by
    cases hl : lookupA s.node_ids n with
    | some j =>
      rw [find_or_add_eq_of_some s n j hl]
      obtain ⟨q1, q2, q3⟩ := hwf.2.1 (n, j) (lookupA_mem hl)
      exact ⟨hl, q2, q1⟩
    | none =>
      rw [find_or_add_eq_of_none s n hl]
      refine ⟨?_, ?_, ?_⟩
      · show lookupA (insertA s.node_ids n s.node_count) n = some s.node_count
        rw [lookupA_insertA, if_pos rfl]
      · show AugMultiGraph.nameOfId _ s.node_count = n
        unfold AugMultiGraph.nameOfId AugMultiGraph.node_info_from_id
        show (((resizeL s.node_infos (s.node_count + 1) NodeInfo.dflt).set s.node_count
          (⟨kind_from_name n, n, marksZero⟩ : NodeInfo))[s.node_count]?.getD
            NodeInfo.dflt).name = n
        rw [← hwf.1, resizeL_append_one, set_append_length]
        rw [List.getElem?_append_right (Nat.le_refl _)]
        simp
      · show s.node_count < s.node_count + 1
        omega
  have hreg := reg_applyOps (s.find_or_add_node_by_name n).1 ops
  have hlook := hreg.2.1 n (s.find_or_add_node_by_name n).2 hbase.1
  have hname := (hreg.2.2 (s.find_or_add_node_by_name n).2 hbase.2.2).1
  refine ⟨hlook, ?_, hname.trans hbase.2.1, hreg.1⟩
  rw [find_or_add_eq_of_some _ n _ hlook]

/-- C8 witness: a fresh node keeps id 0 and its name across a
delete-node operation. -/
theorem c8_node_stability_witness :
    lookupA (applyOps (AugMultiGraph.new.find_or_add_node_by_name "Ua").1
      [Op.deleteNode "" "Ua"]).node_ids "Ua" =
      some (AugMultiGraph.new.find_or_add_node_by_name "Ua").2 ∧
    ((applyOps (AugMultiGraph.new.find_or_add_node_by_name "Ua").1
      [Op.deleteNode "" "Ua"]).find_or_add_node_by_name "Ua").2 =
      (AugMultiGraph.new.find_or_add_node_by_name "Ua").2 ∧
    (applyOps (AugMultiGraph.new.find_or_add_node_by_name "Ua").1
      [Op.deleteNode "" "Ua"]).nameOfId
      (AugMultiGraph.new.find_or_add_node_by_name "Ua").2 = "Ua" ∧
    (AugMultiGraph.new.find_or_add_node_by_name "Ua").1.node_count ≤
      (applyOps (AugMultiGraph.new.find_or_add_node_by_name "Ua").1
        [Op.deleteNode "" "Ua"]).node_count :=
  c8_node_stability AugMultiGraph.new "Ua" [Op.deleteNode "" "Ua"] (by decide)

--  ================================================================
--    Claim C6 (cross-context user broadcast)
--  ================================================================

/-- C6: after write_put_edge(C, U, X, w) with kind(U) = User (name
starting with 'U'), the null context and the target context both
exist, and every existing context stores weight exactly w for the
pair (U, X). -/
theorem c6_user_broadcast (s : AugMultiGraph) (context u x : String) (w : ℚ)
    (hwf : WF s) (hu : kind_from_name u = NodeKind.User) :
    (lookupA (s.write_put_edge context u x w).contexts "").isSome = true ∧
    (lookupA (s.write_put_edge context u x w).contexts context).isSome = true ∧
    ∀ p ∈ (s.write_put_edge context u x w).contexts,
      p.2.edge_weight (s.find_or_add_node_by_name u).2
        ((s.find_or_add_node_by_name u).1.find_or_add_node_by_name x).2 = w := by
  have hkind1 : (s.find_or_add_node_by_name u).1.kindOfId
      (s.find_or_add_node_by_name u).2 = NodeKind.User ∧
      (s.find_or_add_node_by_name u).2 < (s.find_or_add_node_by_name u).1.node_count := by
    cases hl : lookupA s.node_ids u with
    | some j =>
      rw [find_or_add_eq_of_some s u j hl]
      obtain ⟨q1, q2, q3⟩ := hwf.2.1 (u, j) (lookupA_mem hl)
      have q3' : s.kindOfId j = kind_from_name u := q3
      have q1' : j < s.node_count := q1
      exact ⟨show s.kindOfId j = NodeKind.User from q3'.trans hu, q1'⟩
    | none =>
      rw [find_or_add_eq_of_none s u hl]
      constructor
      · show AugMultiGraph.kindOfId _ s.node_count = NodeKind.User
        unfold AugMultiGraph.kindOfId AugMultiGraph.node_info_from_id
        show (((resizeL s.node_infos (s.node_count + 1) NodeInfo.dflt).set s.node_count
          (⟨kind_from_name u, u, marksZero⟩ : NodeInfo))[s.node_count]?.getD
            NodeInfo.dflt).kind = NodeKind.User
        rw [← hwf.1, resizeL_append_one, set_append_length]
        rw [List.getElem?_append_right (Nat.le_refl _)]
        simpa using hu
      · show s.node_count < s.node_count + 1
        omega
  have hreg := reg_find_or_add (s.find_or_add_node_by_name u).1 x
  have hkind2 : ((s.find_or_add_node_by_name u).1.find_or_add_node_by_name x).1.kindOfId
      (s.find_or_add_node_by_name u).2 = NodeKind.User :=
    (hreg.2.2 _ hkind1.2).2.1.trans hkind1.1
  suffices hmain :
      (lookupA (AugMultiGraph.set_edge
        ((s.find_or_add_node_by_name u).1.find_or_add_node_by_name x).1 context
        (s.find_or_add_node_by_name u).2
        ((s.find_or_add_node_by_name u).1.find_or_add_node_by_name x).2 w).contexts
        "").isSome = true ∧
      (lookupA (AugMultiGraph.set_edge
        ((s.find_or_add_node_by_name u).1.find_or_add_node_by_name x).1 context
        (s.find_or_add_node_by_name u).2
        ((s.find_or_add_node_by_name u).1.find_or_add_node_by_name x).2 w).contexts
        context).isSome = true ∧
      ∀ p ∈ (AugMultiGraph.set_edge
        ((s.find_or_add_node_by_name u).1.find_or_add_node_by_name x).1 context
        (s.find_or_add_node_by_name u).2
        ((s.find_or_add_node_by_name u).1.find_or_add_node_by_name x).2 w).contexts,
        p.2.edge_weight (s.find_or_add_node_by_name u).2
          ((s.find_or_add_node_by_name u).1.find_or_add_node_by_name x).2 = w by
    exact hmain
  unfold AugMultiGraph.set_edge
  rw [if_pos hkind2]
  set s2 := ((s.find_or_add_node_by_name u).1.find_or_add_node_by_name x).1 with hs2
  by_cases hc : context = ""
  · simp only [if_pos hc]
    set s3 := (s2.graph_from "").1 with hs3
    have hmem : (lookupA s3.contexts "").isSome = true := graph_from_mem s2 ""
    subst hc
    refine ⟨?_, ?_, ?_⟩
    · rw [lookupA_mapVal s3.contexts "" (fun g => MRGraph.set_edge g (s.find_or_add_node_by_name u).2
        ((s.find_or_add_node_by_name u).1.find_or_add_node_by_name x).2 w)]
      cases hh : lookupA s3.contexts "" with
      | some g => rfl
      | none => rw [hh] at hmem ; exact absurd hmem (by simp)
    · rw [lookupA_mapVal s3.contexts "" (fun g => MRGraph.set_edge g (s.find_or_add_node_by_name u).2
        ((s.find_or_add_node_by_name u).1.find_or_add_node_by_name x).2 w)]
      cases hh : lookupA s3.contexts "" with
      | some g => rfl
      | none => rw [hh] at hmem ; exact absurd hmem (by simp)
    · intro p hp
      obtain ⟨q, hq, hpq⟩ := List.mem_map.mp hp
      rw [← hpq]
      exact MRGraph.edge_weight_set_edge_self q.2 _ _ w
  · simp only [if_neg hc]
    set s3 := (s2.graph_from "").1 with hs3
    set s4 := (s3.graph_from context).1 with hs4
    have hmem0 : (lookupA s4.contexts "").isSome = true := by
      rw [hs4]
      exact graph_from_preserves_some s3 context "" (graph_from_mem s2 "")
    have hmem1 : (lookupA s4.contexts context).isSome = true := by
      rw [hs4]
      exact graph_from_mem s3 context
    refine ⟨?_, ?_, ?_⟩
    · rw [lookupA_mapVal s4.contexts "" (fun g => MRGraph.set_edge g (s.find_or_add_node_by_name u).2
        ((s.find_or_add_node_by_name u).1.find_or_add_node_by_name x).2 w)]
      cases hh : lookupA s4.contexts "" with
      | some g => rfl
      | none => rw [hh] at hmem0 ; exact absurd hmem0 (by simp)
    · rw [lookupA_mapVal s4.contexts context (fun g => MRGraph.set_edge g (s.find_or_add_node_by_name u).2
        ((s.find_or_add_node_by_name u).1.find_or_add_node_by_name x).2 w)]
      cases hh : lookupA s4.contexts context with
      | some g => rfl
      | none => rw [hh] at hmem1 ; exact absurd hmem1 (by simp)
    · intro p hp
      obtain ⟨q, hq, hpq⟩ := List.mem_map.mp hp
      rw [← hpq]
      exact MRGraph.edge_weight_set_edge_self q.2 _ _ w

/-- C6 witness: putting the User edge (Ua, B1) with weight 2 into
context X makes both the null context and X store weight 2 for it. -/
theorem c6_user_broadcast_witness :
    (lookupA (AugMultiGraph.new.write_put_edge "X" "Ua" "B1" 2).contexts "").isSome
      = true ∧
    (lookupA (AugMultiGraph.new.write_put_edge "X" "Ua" "B1" 2).contexts "X").isSome
      = true ∧
    ctxWeight (AugMultiGraph.new.write_put_edge "X" "Ua" "B1" 2) "X" 0 1 = 2 := by
  have h := c6_user_broadcast AugMultiGraph.new "X" "Ua" "B1" 2 (by decide) (by decide)
  refine ⟨h.1, h.2.1, ?_⟩
  obtain ⟨g, hg⟩ := Option.isSome_iff_exists.mp h.2.1
  rw [ctxWeight_of_lookup _ "X" 0 1 g hg]
  exact h.2.2 ("X", g) (lookupA_mem hg)

/-- C7 witness: mark the only beacon B1 for (null, Ua), then read:
B1 is not listed. -/
theorem c7_bloom_monotonicity_witness :
    (applyOps ((applyOps AugMultiGraph.new
        [Op.putEdge "" "Ua" "B1" 1]).write_mark_beacons
      (fun _ _ _ => 7) (fun _ _ _ => 1) "" "Ua") []).nameOfId 1 ∉
      (((applyOps ((applyOps AugMultiGraph.new
          [Op.putEdge "" "Ua" "B1" 1]).write_mark_beacons
        (fun _ _ _ => 7) (fun _ _ _ => 1) "" "Ua") []).read_unmarked_beacons
        (fun _ _ _ => 7) (fun _ _ _ => 1) "" "Ua").2.map Prod.fst) :=
  c7_bloom_monotonicity (fun _ _ _ => 7) (fun _ _ _ => 1) (fun _ _ _ => 1)
    (applyOps AugMultiGraph.new [Op.putEdge "" "Ua" "B1" 1]) "" "Ua" [] 1
    (by decide) (by decide) (by decide) (by decide)

--  ================================================================
--    Claim C9 (delete with unknown endpoint is a no-op)
--  ================================================================

/-- C9: write_delete_edge with an unknown endpoint returns the state
entirely unchanged: registry, contexts and every edge weight. -/
theorem c9_delete_edge_unknown_noop (s : AugMultiGraph) (context src dst : String)
    (h : s.node_exists src = false ∨ s.node_exists dst = false) :
    s.write_delete_edge context src dst = s := by
  unfold AugMultiGraph.write_delete_edge
  rw [if_pos h]

/-- C9 witness: deleting the edge (Ua, Uz) with Uz unknown leaves the
state unchanged. -/
theorem c9_delete_edge_unknown_noop_witness :
    (applyOps AugMultiGraph.new [Op.putEdge "" "Ua" "B1" 1]).write_delete_edge
      "" "Ua" "Uz" = applyOps AugMultiGraph.new [Op.putEdge "" "Ua" "B1" 1] :=
  c9_delete_edge_unknown_noop (applyOps AugMultiGraph.new
    [Op.putEdge "" "Ua" "B1" 1]) "" "Ua" "Uz" (by decide)

--  ================================================================
--    Claim C10 (write_mark_beacons creates the source node)
--  ================================================================

/-- C10: write_mark_beacons with an unknown src registers the node
(node_exists becomes true and node_count grows by one), while
read_unmarked_beacons with an unknown src returns the empty list and
leaves the state untouched. -/
theorem c10_mark_beacons_unknown_src (bits : String → String → Marks)
    (score score2 : String → Nat → Nat → ℚ) (s : AugMultiGraph)
    (context src : String) (h : s.node_exists src = false) :
    (s.write_mark_beacons bits score context src).node_exists src = true ∧
    (s.write_mark_beacons bits score context src).node_count = s.node_count + 1 ∧
    (s.read_unmarked_beacons bits score2 context src).1 = s ∧
    (s.read_unmarked_beacons bits score2 context src).2 = [] := by
  have hl : lookupA s.node_ids src = none := by
    cases hx : lookupA s.node_ids src with
    | none => rfl
    | some v =>
      have : s.node_exists src = true := by
        unfold AugMultiGraph.node_exists
        rw [hx]
        rfl
      rw [this] at h
      exact absurd h (by simp)
  have hread : s.read_unmarked_beacons bits score2 context src = (s, []) := by
    unfold AugMultiGraph.read_unmarked_beacons
    by_cases hc : (lookupA s.contexts context).isNone = true
    · rw [if_pos hc]
    · rw [if_neg hc, if_pos h]
  refine ⟨?_, ?_, by rw [hread], by rw [hread]⟩
  · show (AugMultiGraph.node_exists _ src) = true
    unfold AugMultiGraph.write_mark_beacons AugMultiGraph.node_exists
    have hids := (mark_fold_count_ids score context (s.find_or_add_node_by_name src).2
      (bits context src) (List.range (s.find_or_add_node_by_name src).1.node_count)
      (s.find_or_add_node_by_name src).1).2.1
    rw [hids]
    rw [find_or_add_eq_of_none s src hl]
    show (lookupA (insertA s.node_ids src s.node_count) src).isSome = true
    rw [lookupA_insertA, if_pos rfl]
    rfl
  · unfold AugMultiGraph.write_mark_beacons
    have hcount := (mark_fold_count_ids score context (s.find_or_add_node_by_name src).2
      (bits context src) (List.range (s.find_or_add_node_by_name src).1.node_count)
      (s.find_or_add_node_by_name src).1).1
    rw [hcount]
    rw [find_or_add_eq_of_none s src hl]

/-- C10 witness: marking from the unknown source Uz creates its node;
reading from Uz returns nothing and changes nothing. -/
theorem c10_mark_beacons_unknown_src_witness :
    ((applyOps AugMultiGraph.new [Op.putEdge "" "Ua" "B1" 1]).write_mark_beacons
      (fun _ _ _ => 7) (fun _ _ _ => 1) "" "Uz").node_exists "Uz" = true ∧
    ((applyOps AugMultiGraph.new [Op.putEdge "" "Ua" "B1" 1]).write_mark_beacons
      (fun _ _ _ => 7) (fun _ _ _ => 1) "" "Uz").node_count =
      (applyOps AugMultiGraph.new [Op.putEdge "" "Ua" "B1" 1]).node_count + 1 ∧
    ((applyOps AugMultiGraph.new [Op.putEdge "" "Ua" "B1" 1]).read_unmarked_beacons
      (fun _ _ _ => 7) (fun _ _ _ => 1) "" "Uz").1 =
      applyOps AugMultiGraph.new [Op.putEdge "" "Ua" "B1" 1] ∧
    ((applyOps AugMultiGraph.new [Op.putEdge "" "Ua" "B1" 1]).read_unmarked_beacons
      (fun _ _ _ => 7) (fun _ _ _ => 1) "" "Uz").2 = [] :=
  c10_mark_beacons_unknown_src (fun _ _ _ => 7) (fun _ _ _ => 1) (fun _ _ _ => 1)
    (applyOps AugMultiGraph.new [Op.putEdge "" "Ua" "B1" 1]) "" "Uz" (by decide)

--  ================================================================
--    Claim C2 (double-negative path contraction)
--  ================================================================

/-- C2 counterexample: with normalised factors -0.8 (focus to the
Comment node C1) and -0.6 (C1 to Ub), read_graph emits the contracted
edge (Ua, Ub) with weight -0.48, not +0.48 as claimed: the code
multiplies the factors and then applies the extra factor -1 when both
are negative. -/
theorem c2_contraction_counterexample :
    ("Ua", "Ub", mkRat 12 25) ∉ ((applyOps AugMultiGraph.new
        [Op.putEdge "" "Ua" "Uc" 1, Op.putEdge "" "Ua" "C1" (mkRat (-4) 5),
         Op.putEdge "" "C1" "Uf" 1, Op.putEdge "" "C1" "Ub" (mkRat (-3) 5)]).read_graph
      (fun _ _ _ => 1) [] "" "Ua" "Ua" false 0 10).2 ∧
    ("Ua", "Ub", mkRat (-12) 25) ∈ ((applyOps AugMultiGraph.new
        [Op.putEdge "" "Ua" "Uc" 1, Op.putEdge "" "Ua" "C1" (mkRat (-4) 5),
         Op.putEdge "" "C1" "Uf" 1, Op.putEdge "" "C1" "Ub" (mkRat (-3) 5)]).read_graph
      (fun _ _ _ => 1) [] "" "Ua" "Ua" false 0 10).2 := by
  decide

/-- C2 (amended): with both normalised factor weights negative (-0.8
and -0.6), the contracted edge weight computed by read_graph is -0.48:
the product of the factors times -1, per the sign rule at
operations.rs line 791.  The concrete run of the counterexample
confirms the emitted edge (Ua, Ub, -0.48). -/
theorem c2_contraction_amended :
    contract_weight (mkRat (-4) 5) (mkRat (-3) 5) = mkRat (-12) 25 ∧
    ("Ua", "Ub", mkRat (-12) 25) ∈ ((applyOps AugMultiGraph.new
        [Op.putEdge "" "Ua" "Uc" 1, Op.putEdge "" "Ua" "C1" (mkRat (-4) 5),
         Op.putEdge "" "C1" "Uf" 1, Op.putEdge "" "C1" "Ub" (mkRat (-3) 5)]).read_graph
      (fun _ _ _ => 1) [] "" "Ua" "Ua" false 0 10).2 := by
  decide

--  ================================================================
--    Claim C4 (read_scores pagination)
--  ================================================================

/-- C4: the read_scores paging loop `for i in index..count` returns
the elements with positions in [index, count), not the spec's slice
[index, index+count).  On three filtered results sorted as
[(Ub, 3), (Uc, 2), (Ud, 1)] with index = 1 and count = 2, the code
returns the single row (Ua, Uc, 2), while the slice [1, 3) of the
same sorted list holds the two entries (Uc, 2) and (Ud, 1). -/
theorem c4_read_scores_pagination :
    ((applyOps AugMultiGraph.new
        [Op.putEdge "" "Ua" "Ub" 1, Op.putEdge "" "Ua" "Uc" 1,
         Op.putEdge "" "Ua" "Ud" 1]).read_scores [(1, 3), (2, 2), (3, 1)]
      "" "Ua" "" false 100 false 0 false 1 2).2 = [("Ua", "Uc", 2)] ∧
    readScoresSpecPage (sortDescBy (fun p => ratAbs p.2)
      [((1 : Nat), (3 : ℚ)), (2, 2), (3, 1)]) 1 2 = [(2, 2), (3, 1)] := by
  decide

--  ================================================================
--    Claim C5 (positive_only and emitted weights)
--  ================================================================

/-- C5 counterexample: with positive_only = true, read_graph still
emits an edge with negative weight.  Ua has the direct User neighbour
Ub with normalised edge weight -0.8; positive_only only consults the
estimator score of the neighbour (here 1 > 0), so the triple
(Ua, Ub, -0.8) is returned despite its non-positive weight. -/
theorem c5_positive_only_counterexample :
    ("Ua", "Ub", mkRat (-4) 5) ∈ ((applyOps AugMultiGraph.new
        [Op.putEdge "" "Ua" "Uc" 1,
         Op.putEdge "" "Ua" "Ub" (mkRat (-4) 5)]).read_graph
      (fun _ _ _ => 1) [] "" "Ua" "Ua" true 0 10).2 ∧
    (mkRat (-4) 5 ≤ 0) := by
  decide

theorem readGraphBuildFinal_inner_eps
    (l : List (Nat × Nat × ℚ)) (acc : List (Nat × Nat × ℚ))
    (hacc : ∀ e ∈ acc, e.2.2 ≤ -EPSILON ∨ EPSILON ≤ e.2.2) :
    ∀ e ∈ l.foldl (fun acc e =>
      if -EPSILON < e.2.2 ∧ e.2.2 < EPSILON then acc
      else if acc.any (fun x => x.1 = e.1 && x.2.1 = e.2.1) then acc
      else acc ++ [e]) acc, e.2.2 ≤ -EPSILON ∨ EPSILON ≤ e.2.2 := by
  induction l generalizing acc with
  | nil => exact hacc
  | cons y t ih =>
    simp only [List.foldl_cons]
    refine ih _ ?_
    by_cases h1 : -EPSILON < y.2.2 ∧ y.2.2 < EPSILON
    · rw [if_pos h1]
      exact hacc
    · rw [if_neg h1]
      by_cases h2 : acc.any (fun x => x.1 = y.1 && x.2.1 = y.2.1) = true
      · rw [if_pos h2]
        exact hacc
      · rw [if_neg h2]
        intro e he
        rcases List.mem_append.mp he with he | he
        · exact hacc e he
        · rw [List.mem_singleton.mp he]
          rcases not_and_or.mp h1 with hh | hh
          · exact Or.inl (not_lt.mp hh)
          · exact Or.inr (not_lt.mp hh)

theorem readGraphBuildFinal_eps (nodes : List Nat) (edges : List (Nat × Nat × ℚ)) :
    ∀ e ∈ readGraphBuildFinal nodes edges,
      e.2.2 ≤ -EPSILON ∨ EPSILON ≤ e.2.2 := by
  unfold readGraphBuildFinal
  suffices h : ∀ (ns : List Nat) (acc : List (Nat × Nat × ℚ)),
      (∀ e ∈ acc, e.2.2 ≤ -EPSILON ∨ EPSILON ≤ e.2.2) →
      ∀ e ∈ ns.foldl (fun acc src =>
        (edges.filter (fun e => decide (e.1 = src))).foldl (fun acc e =>
          if -EPSILON < e.2.2 ∧ e.2.2 < EPSILON then acc
          else if acc.any (fun x => x.1 = e.1 && x.2.1 = e.2.1) then acc
          else acc ++ [e]) acc) acc, e.2.2 ≤ -EPSILON ∨ EPSILON ≤ e.2.2 by
    exact h nodes [] (by simp)
  intro ns
  induction ns with
  | nil => exact fun acc hacc => hacc
  | cons x t ih =>
    intro acc hacc
    simp only [List.foldl_cons]
    exact ih _ (readGraphBuildFinal_inner_eps _ acc hacc)

/-- C5 (amended): read_graph never returns an edge whose weight lies
within EPSILON of zero — that is the only weight filtering the code
performs on the final array (operations.rs line 976) — but
positive_only does not prevent non-positive weights: it only skips
User neighbours with non-positive estimator score and two-hop
contributions with non-positive second factor (see the
counterexample). -/
theorem c5_positive_only_amended (score : String → Nat → Nat → ℚ)
    (pathO : List Nat) (s : AugMultiGraph) (context ego focus : String)
    (positive_only : Bool) (index count : Nat) :
    ∀ e ∈ (s.read_graph score pathO context ego focus positive_only index count).2,
      e.2.2 ≤ -EPSILON ∨ EPSILON ≤ e.2.2 := by
  unfold AugMultiGraph.read_graph
  by_cases h1 : (lookupA s.contexts context).isNone = true
  · rw [if_pos h1]
    intro e he
    exact absurd he (List.not_mem_nil e)
  · rw [if_neg h1]
    by_cases h2 : s.node_exists ego = false
    · rw [if_pos h2]
      intro e he
      exact absurd he (List.not_mem_nil e)
    · rw [if_neg h2]
      by_cases h3 : s.node_exists focus = false
      · rw [if_pos h3]
        intro e he
        exact absurd he (List.not_mem_nil e)
      · rw [if_neg h3]
        intro e he
        obtain ⟨q, hq, hqe⟩ := List.mem_map.mp he
        have hq2 : q ∈ readGraphBuildFinal _ _ :=
          (mem_sortDescBy _ _ q).mp
            (List.mem_of_mem_drop (List.mem_of_mem_take hq))
        have := readGraphBuildFinal_eps _ _ q hq2
        rw [← hqe]
        exact this

/-- C5 amended witness: the concrete counterexample edge weight -0.8
is indeed at least EPSILON away from zero. -/
theorem c5_positive_only_amended_witness :
    ("Ua", "Ub", mkRat (-4) 5) ∈ ((applyOps AugMultiGraph.new
        [Op.putEdge "" "Ua" "Uc" 1,
         Op.putEdge "" "Ua" "Ub" (mkRat (-4) 5)]).read_graph
      (fun _ _ _ => 1) [] "" "Ua" "Ua" true 0 10).2 ∧
    ((mkRat (-4) 5 : ℚ) ≤ -EPSILON ∨ EPSILON ≤ (mkRat (-4) 5 : ℚ)) :=
  ⟨by decide,
    c5_positive_only_amended (fun _ _ _ => 1) [] (applyOps AugMultiGraph.new
        [Op.putEdge "" "Ua" "Uc" 1, Op.putEdge "" "Ua" "Ub" (mkRat (-4) 5)])
      "" "Ua" "Ua" true 0 10 ("Ua", "Ub", mkRat (-4) 5) (by decide)⟩
